import Mathlib

/-! Credential materializer of `controllers/jetstream/common.go`.

A shallow embedding of `AuthTool` together with the library calls it makes
(`strings`, `encoding/base64`, `crypto/md5`, `fmt`, `os`, `io/ioutil`), and
theorems about it.

Conventions of the embedding.

* A Go `string` is a `List Char`: the embedding covers strings that are valid
  UTF-8 text.  A Go `[]byte` is a `List Nat` whose entries are below 256.
* The file system is an association list from resolved path names to nodes;
  `os.Stat` resolves `.`, `..` and repeated or trailing separators to reach
  one.  There are no symbolic links.
* Failures of the operating system that the state does not determine
  (permissions, full disk, read-only mount) are the `Faults` argument of a
  call.
-/

set_option autoImplicit false

namespace Nack

/-! ## Strings -/

/-- A Go `string`, as its sequence of code points. -/
abbrev GoString := List Char

/-- A Go `[]byte`; every entry is below 256. -/
abbrev Bytes := List Nat

/-- `strings.SplitN(s, sep, n)` for a separator of one character and `n ≥ 0`:
at most `n` pieces, the last one the unsplit remainder. -/
def SplitN (s : GoString) (sep : Char) : Nat → List GoString
  | 0 => []
  | 1 => [s]
  | n + 2 =>
    match s.span (fun c => c != sep) with
    | (a, []) => [a]
    | (a, _ :: rest) => a :: SplitN rest sep (n + 1)

/-- `unicode.IsSpace`: the Latin-1 spaces and the `White_Space` table. -/
def IsSpace (r : Char) : Bool :=
  let n := r.toNat
  if n ≤ 0xFF then
    n == 0x09 || n == 0x0A || n == 0x0B || n == 0x0C || n == 0x0D || n == 0x20 ||
      n == 0x85 || n == 0xA0
  else
    n == 0x1680 || (0x2000 ≤ n && n ≤ 0x200A) || n == 0x2028 || n == 0x2029 ||
      n == 0x202F || n == 0x205F || n == 0x3000

/-- `strings.TrimSpace`: drop the leading and the trailing white space. -/
def TrimSpace (s : GoString) : GoString :=
  ((s.dropWhile IsSpace).reverse.dropWhile IsSpace).reverse

/-- `unicode.ToLower`: ASCII is lowered directly, every other code point goes
through the case table `tbl` of the `unicode` package. -/
def unicodeToLower (tbl : Char → Char) (r : Char) : Char :=
  if r.toNat ≤ 0x7F then
    if 'A'.toNat ≤ r.toNat ∧ r.toNat ≤ 'Z'.toNat then Char.ofNat (r.toNat + 32) else r
  else tbl r

/-- `strings.ToLower`: every code point mapped by `unicode.ToLower`. -/
def ToLower (tbl : Char → Char) (s : GoString) : GoString :=
  s.map (unicodeToLower tbl)

/-- Worker of `ReplaceAll`: `skip` counts the characters of a match that are
still to be dropped. -/
def ReplaceAll.go (old new : GoString) : Nat → GoString → GoString
  | _, [] => []
  | skip + 1, _ :: rest => ReplaceAll.go old new skip rest
  | 0, c :: rest =>
    if old.isPrefixOf (c :: rest) then new ++ ReplaceAll.go old new (old.length - 1) rest
    else c :: ReplaceAll.go old new 0 rest

/-- `strings.ReplaceAll(s, old, new)` for a non-empty `old`: the
non-overlapping occurrences of `old`, found from the left, become `new`. -/
def ReplaceAll (s old new : GoString) : GoString :=
  ReplaceAll.go old new 0 s

/-- The words of the specification for the literal form: every backslash
followed by `n` becomes one newline, read from the left.  Compared with
`ReplaceAll` in `ReplaceAll_backslash_n`. -/
def unescapeNewlines : GoString → GoString
  | '\\' :: 'n' :: rest => Char.ofNat 10 :: unescapeNewlines rest
  | c :: rest => c :: unescapeNewlines rest
  | [] => []

/-- The UTF-8 encoding of one code point. -/
def utf8EncodeRune (r : Char) : Bytes :=
  let n := r.toNat
  if n < 0x80 then [n]
  else if n < 0x800 then [0xC0 + n / 64, 0x80 + n % 64]
  else if n < 0x10000 then [0xE0 + n / 4096, 0x80 + n / 64 % 64, 0x80 + n % 64]
  else [0xF0 + n / 262144, 0x80 + n / 4096 % 64, 0x80 + n / 64 % 64, 0x80 + n % 64]

/-- The conversion `[]byte(s)`: the UTF-8 bytes of a string. -/
def toBytes (s : GoString) : Bytes :=
  s.flatMap utf8EncodeRune

/-! ## `crypto/md5` and `%x` -/

/-- The per-round shift amounts of MD5 (RFC 1321). -/
def md5.shifts : List Nat :=
  [7, 12, 17, 22, 7, 12, 17, 22, 7, 12, 17, 22, 7, 12, 17, 22,
   5, 9, 14, 20, 5, 9, 14, 20, 5, 9, 14, 20, 5, 9, 14, 20,
   4, 11, 16, 23, 4, 11, 16, 23, 4, 11, 16, 23, 4, 11, 16, 23,
   6, 10, 15, 21, 6, 10, 15, 21, 6, 10, 15, 21, 6, 10, 15, 21]

/-- The sine table of MD5: entry `i` is the integer part of `2^32 * |sin (i + 1)|`. -/
def md5.table : List Nat :=
  [0xd76aa478, 0xe8c7b756, 0x242070db, 0xc1bdceee,
   0xf57c0faf, 0x4787c62a, 0xa8304613, 0xfd469501,
   0x698098d8, 0x8b44f7af, 0xffff5bb1, 0x895cd7be,
   0x6b901122, 0xfd987193, 0xa679438e, 0x49b40821,
   0xf61e2562, 0xc040b340, 0x265e5a51, 0xe9b6c7aa,
   0xd62f105d, 0x02441453, 0xd8a1e681, 0xe7d3fbc8,
   0x21e1cde6, 0xc33707d6, 0xf4d50d87, 0x455a14ed,
   0xa9e3e905, 0xfcefa3f8, 0x676f02d9, 0x8d2a4c8a,
   0xfffa3942, 0x8771f681, 0x6d9d6122, 0xfde5380c,
   0xa4beea44, 0x4bdecfa9, 0xf6bb4b60, 0xbebfbc70,
   0x289b7ec6, 0xeaa127fa, 0xd4ef3085, 0x04881d05,
   0xd9d4d039, 0xe6db99e5, 0x1fa27cf8, 0xc4ac5665,
   0xf4292244, 0x432aff97, 0xab9423a7, 0xfc93a039,
   0x655b59c3, 0x8f0ccc92, 0xffeff47d, 0x85845dd1,
   0x6fa87e4f, 0xfe2ce6e0, 0xa3014314, 0x4e0811a1,
   0xf7537e82, 0xbd3af235, 0x2ad7d2bb, 0xeb86d391]

/-- The four 32-bit chaining words of MD5. -/
structure md5.State where
  a : Nat
  b : Nat
  c : Nat
  d : Nat
  deriving DecidableEq, Repr

/-- Rotation of a 32-bit word to the left. -/
def md5.rotl (x c : Nat) : Nat :=
  ((x <<< c) ||| (x >>> (32 - c))) % 2 ^ 32

/-- Bitwise complement of a 32-bit word. -/
def md5.not32 (x : Nat) : Nat := (2 ^ 32 - 1) ^^^ x

/-- One of the 64 operations of the MD5 compression function on the block `m`
of sixteen words. -/
def md5.step (m : List Nat) (s : md5.State) (i : Nat) : md5.State :=
  let f :=
    if i < 16 then (s.b &&& s.c) ||| (md5.not32 s.b &&& s.d)
    else if i < 32 then (s.d &&& s.b) ||| (md5.not32 s.d &&& s.c)
    else if i < 48 then s.b ^^^ s.c ^^^ s.d
    else s.c ^^^ (s.b ||| md5.not32 s.d)
  let g :=
    if i < 16 then i
    else if i < 32 then (5 * i + 1) % 16
    else if i < 48 then (3 * i + 5) % 16
    else (7 * i) % 16
  let x := (f + s.a + md5.table.getD i 0 + m.getD g 0) % 2 ^ 32
  { a := s.d, b := (s.b + md5.rotl x (md5.shifts.getD i 0)) % 2 ^ 32, c := s.b, d := s.c }

/-- The MD5 compression function: the chaining value after one block. -/
def md5.block (s : md5.State) (m : List Nat) : md5.State :=
  let t := (List.range 64).foldl (md5.step m) s
  { a := (s.a + t.a) % 2 ^ 32, b := (s.b + t.b) % 2 ^ 32,
    c := (s.c + t.c) % 2 ^ 32, d := (s.d + t.d) % 2 ^ 32 }

/-- Little-endian 32-bit words of a byte sequence. -/
def md5.words : Bytes → List Nat
  | a :: b :: c :: d :: rest =>
    (a % 256 + 256 * (b % 256) + 65536 * (c % 256) + 16777216 * (d % 256)) :: md5.words rest
  | _ => []

/-- The little-endian bytes of a word, `k` of them. -/
def md5.leBytes (x : Nat) : Nat → Bytes
  | 0 => []
  | k + 1 => x % 256 :: md5.leBytes (x / 256) k

/-- MD5 padding: a one bit, zeros up to 56 modulo 64, the bit length on 64 bits. -/
def md5.pad (msg : Bytes) : Bytes :=
  msg ++ 0x80 :: List.replicate ((119 - msg.length % 64) % 64) 0 ++
    md5.leBytes (8 * msg.length % 2 ^ 64) 8

/-- Run the compression function over `n` blocks of sixteen words. -/
def md5.blocks : Nat → md5.State → List Nat → md5.State
  | 0, s, _ => s
  | n + 1, s, ws => md5.blocks n (md5.block s (ws.take 16)) (ws.drop 16)

/-- `md5.Sum`: the sixteen bytes of the MD5 digest. -/
def md5.Sum (data : Bytes) : Bytes :=
  let ws := md5.words (md5.pad data)
  let s := md5.blocks (ws.length / 16)
    { a := 0x67452301, b := 0xefcdab89, c := 0x98badcfe, d := 0x10325476 } ws
  md5.leBytes s.a 4 ++ md5.leBytes s.b 4 ++ md5.leBytes s.c 4 ++ md5.leBytes s.d 4

/-- One lowercase hexadecimal digit. -/
def hexDigit (n : Nat) : Char :=
  if n < 10 then Char.ofNat (48 + n) else Char.ofNat (87 + n)

/-- The verb `%x` of `fmt` on a byte array: two lowercase hexadecimal digits
for every byte. -/
def hexString : Bytes → GoString
  | [] => []
  | b :: rest => hexDigit (b % 256 / 16) :: hexDigit (b % 16) :: hexString rest

/-! ## Errors -/

/-- The error values `AuthTool` can return. -/
inductive GoError where
  /-- An error made by `fmt.Errorf`, with its message. -/
  | errorf (msg : GoString)
  /-- The `base64.CorruptInputError` at a byte offset of the input. -/
  | corruptInput (offset : Nat)
  /-- An `*os.PathError`: operation, path and error number. -/
  | pathError (op : GoString) (path : GoString) (errno : Nat)
  deriving DecidableEq, Repr

deriving instance DecidableEq for Except

/-! ## `encoding/base64`, the standard encoding -/

/-- The alphabet of `base64.StdEncoding`. -/
def base64.alphabet : GoString :=
  "ABCDEFGHIJKLMNOPQRSTUVWXYZabcdefghijklmnopqrstuvwxyz0123456789+/".toList

/-- The decode map of the standard encoding: the value of an input byte, or
`none` where the Go table holds `0xff`. -/
def base64.decodeMap (b : Nat) : Option Nat :=
  if 65 ≤ b ∧ b ≤ 90 then some (b - 65)
  else if 97 ≤ b ∧ b ≤ 122 then some (b - 71)
  else if 48 ≤ b ∧ b ≤ 57 then some (b + 4)
  else if b = 43 then some 62
  else if b = 47 then some 63
  else none

/-- A carriage return or a line feed, which the decoder skips. -/
def base64.isNewline (b : Nat) : Bool := b == 10 || b == 13

/-- The bytes of a quantum: `dlen` six-bit values give `dlen - 1` bytes. -/
def base64.quantumBytes (dbuf : List Nat) : Bytes :=
  let v := dbuf.getD 0 0 * 262144 + dbuf.getD 1 0 * 4096 + dbuf.getD 2 0 * 64 + dbuf.getD 3 0
  ([v / 65536 % 256, v / 256 % 256, v % 256]).take (dbuf.length - 1)

/-- After the padding of a quantum only newlines may follow; `si` is the
offset of the first byte of `src`. -/
def base64.afterPadding (out : Bytes) (src : Bytes) (si : Nat) : Except GoError Bytes :=
  let skipped := src.takeWhile base64.isNewline
  match src.dropWhile base64.isNewline with
  | [] => .ok out
  | _ :: _ => .error (.corruptInput (si + skipped.length))

/-- The loop of `Encoding.Decode` with `decodeQuantum` inlined: `out` holds the
bytes decoded so far, `dbuf` the six-bit values of the quantum being read and
`si` the offset of the next input byte. -/
def base64.decode (out : Bytes) (dbuf : List Nat) : Bytes → Nat → Except GoError Bytes
  | [], si =>
    if dbuf.length = 0 then .ok out else .error (.corruptInput (si - dbuf.length))
  | c :: rest, si =>
    match base64.decodeMap c with
    | some v =>
      if dbuf.length = 3 then base64.decode (out ++ base64.quantumBytes (dbuf ++ [v])) [] rest (si + 1)
      else base64.decode out (dbuf ++ [v]) rest (si + 1)
    | none =>
      if base64.isNewline c then base64.decode out dbuf rest (si + 1)
      else if c ≠ 61 then .error (.corruptInput si)
      else if dbuf.length < 2 then .error (.corruptInput si)
      else if dbuf.length = 2 then
        let skipped := rest.takeWhile base64.isNewline
        match rest.dropWhile base64.isNewline with
        | [] => .error (.corruptInput (si + 1 + skipped.length))
        | p :: rest2 =>
          if p ≠ 61 then .error (.corruptInput (si + skipped.length))
          else base64.afterPadding (out ++ base64.quantumBytes dbuf) rest2 (si + 2 + skipped.length)
      else base64.afterPadding (out ++ base64.quantumBytes dbuf) rest (si + 1)

/-- `base64.StdEncoding.DecodeString`. -/
def base64.DecodeString (s : GoString) : Except GoError Bytes :=
  base64.decode [] [] (toBytes s) 0

/-- The character of a six-bit value in the standard alphabet. -/
def base64.encodeChar (v : Nat) : Char := base64.alphabet.getD v 'A'

/-- `base64.StdEncoding.EncodeToString`: three bytes give four characters, a
remainder of one or two bytes is padded with `=`. -/
def base64.EncodeToString : Bytes → GoString
  | [] => []
  | [a] => [base64.encodeChar (a / 4), base64.encodeChar (a % 4 * 16), '=', '=']
  | [a, b] =>
    [base64.encodeChar (a / 4), base64.encodeChar (a % 4 * 16 + b / 16),
      base64.encodeChar (b % 16 * 4), '=']
  | a :: b :: c :: rest =>
    base64.encodeChar (a / 4) :: base64.encodeChar (a % 4 * 16 + b / 16) ::
      base64.encodeChar (b % 16 * 4 + c / 64) :: base64.encodeChar (c % 64) ::
      base64.EncodeToString rest

/-! ## The file system: `os` and `io/ioutil` -/

/-- What a path names: a regular file with its content, or a directory. -/
inductive Node where
  | file (content : Bytes)
  | dir
  deriving DecidableEq, Repr

/-- A file system state: path names with what they name, the first entry of a
name being the current one. -/
abbrev FS := List (GoString × Node)

/-- How the write of a file goes wrong, when it does. -/
inductive WriteFault where
  /-- The write goes through. -/
  | ok
  /-- The file cannot be opened or created. -/
  | openFails (errno : Nat)
  /-- The file is opened, `n` bytes reach it, then the write fails. -/
  | shortWrite (n : Nat) (errno : Nat)
  deriving DecidableEq, Repr

/-- The failures of the operating system during one call that the file system
state does not determine. -/
structure Faults where
  /-- The error number of the `mkdir` system call on a path, when it is refused. -/
  mkdir : GoString → Option Nat
  /-- The fate of the file write. -/
  write : WriteFault

/-- A call during which the operating system refuses nothing. -/
def Faults.none : Faults := { mkdir := fun _ => Option.none, write := WriteFault.ok }

/-- The node recorded under a name taken as it is written: the entry of the file
system for a path that needs no resolution. -/
def Stat (fs : FS) (name : GoString) : Option Node := fs.lookup name

/-- Worker of `pathElements`: `cur` is the element being read. -/
def pathElements.go : GoString → GoString → List GoString
  | cur, [] => [cur]
  | cur, c :: rest =>
    if c = '/' then cur :: pathElements.go [] rest else pathElements.go (cur ++ [c]) rest

/-- The elements of a path, the pieces between its separators: `/a//b/` has the
elements `""`, `a`, `""`, `b`, `""`. -/
def pathElements (path : GoString) : List GoString := pathElements.go [] path

/-- A path that names its entry directly: no element is `.` or `..`, and none is
empty but the first one, that of an absolute path. -/
def isDirect (path : GoString) : Bool :=
  match pathElements path with
  | [] => true
  | first :: rest =>
    first != ".".toList && first != "..".toList &&
      rest.all (fun e => e != [] && e != ".".toList && e != "..".toList)

/-- The name of the place a walk has reached: its elements, the innermost
first in `stack`, joined by separators. -/
def joinPath (abs : Bool) (stack : List GoString) : GoString :=
  (if abs then ['/'] else []) ++ List.intercalate ['/'] stack.reverse

/-- The place a walk has reached is a directory: the root, the working
directory or one above it, or a name recorded as a directory. -/
def os.isDir (fs : FS) (abs : Bool) (stack : List GoString) : Bool :=
  stack.all (fun e => e == "..".toList) || Nack.Stat fs (joinPath abs stack) == some Node.dir

/-- Path resolution over the elements still to read: an empty element is
skipped, `.` stays in a directory, `..` leaves a directory for its parent (the
root is its own parent), any other element is entered.  The walk fails where
`.` or `..` is applied to what is no directory. -/
def os.walk (fs : FS) (abs : Bool) : List GoString → List GoString → Option (List GoString)
  | stack, [] => some stack
  | stack, e :: rest =>
    if e = [] then os.walk fs abs stack rest
    else if e = ".".toList then
      if os.isDir fs abs stack then os.walk fs abs stack rest else none
    else if e = "..".toList then
      if os.isDir fs abs stack then
        match stack with
        | [] => if abs then os.walk fs abs [] rest else os.walk fs abs [e] rest
        | top :: below =>
          if top = "..".toList then os.walk fs abs (e :: top :: below) rest
          else os.walk fs abs below rest
      else none
    else os.walk fs abs (e :: stack) rest

/-- `os.Stat`: the node a path leads to, if it leads to one.  A direct path is
looked up as it is written; any other is resolved first, and a path that ends
in a separator or in `.` leads to a directory only.  There are no symbolic
links. -/
def os.Stat (fs : FS) (name : GoString) : Option Node :=
  if isDirect name then Nack.Stat fs name
  else
    match os.walk fs (name.head? == some '/') [] (pathElements name) with
    | none => none
    | some stack =>
      if stack.all (fun e => e == "..".toList) then some Node.dir
      else
        match Nack.Stat fs (joinPath (name.head? == some '/') stack) with
        | some Node.dir => some Node.dir
        | some (Node.file content) =>
          if (pathElements name).getLast? = some [] ∨
              (pathElements name).getLast? = some ".".toList then none
          else some (Node.file content)
        | none => none

/-- The closure `checkFileIsExist` of `AuthTool`: `os.Stat` returns no error. -/
def checkFileIsExist (fs : FS) (filename : GoString) : Bool := (os.Stat fs filename).isSome

/-- Worker of `pathPrefixes`: `acc` is the part of the path read so far. -/
def pathPrefixes.go : GoString → GoString → List GoString → List GoString
  | acc, [], out => if acc = [] ∨ acc.getLast? = some '/' then out else acc :: out
  | acc, c :: rest, out =>
    if c = '/' then
      if acc = [] ∨ acc.getLast? = some '/' then pathPrefixes.go (acc ++ [c]) rest out
      else pathPrefixes.go (acc ++ [c]) rest (acc :: out)
    else pathPrefixes.go (acc ++ [c]) rest out

/-- The directories `os.MkdirAll` visits for a path: the path without its
trailing separators, then its parents, the longest first. -/
def pathPrefixes (path : GoString) : List GoString := pathPrefixes.go [] path []

/-- Worker of `MkdirAll` over directories written without a trailing separator,
the longest first: a directory that exists ends the walk, a regular file in the
way is `ENOTDIR` (20), a missing directory is made after its parent, unless the
system refuses. -/
def MkdirAll.go (io : Faults) : List GoString → FS → FS × Option GoError
  | [], fs => (fs, none)
  | p :: parents, fs =>
    match Stat fs p with
    | some Node.dir => (fs, none)
    | some (Node.file _) => (fs, some (GoError.pathError "mkdir".toList p 20))
    | none =>
      match MkdirAll.go io parents fs with
      | (fs1, some e) => (fs1, some e)
      | (fs1, none) =>
        match io.mkdir p with
        | some errno => (fs1, some (GoError.pathError "mkdir".toList p errno))
        | none => ((p, Node.dir) :: fs1, none)

/-- `os.MkdirAll(path, perm)`: the new file system and the error, if any.  A
path written without a trailing separator is walked by the worker.  On a path
written with one, `os.Stat` does not find a regular file of that name: the
parents are made first and `mkdir` then fails with `EEXIST` (17); the errors of
that last step carry the path as it is written.  The empty path is `ENOENT`
(2). -/
def MkdirAll (io : Faults) (fs : FS) (path : GoString) : FS × Option GoError :=
  match pathPrefixes path with
  | [] => if path = [] then (fs, some (GoError.pathError "mkdir".toList path 2)) else (fs, none)
  | p :: parents =>
    if path = p then MkdirAll.go io (p :: parents) fs
    else
      match Stat fs p with
      | some Node.dir => (fs, none)
      | some (Node.file _) =>
        match MkdirAll.go io parents fs with
        | (fs1, some e) => (fs1, some e)
        | (fs1, none) => (fs1, some (GoError.pathError "mkdir".toList path 17))
      | none =>
        match MkdirAll.go io parents fs with
        | (fs1, some e) => (fs1, some e)
        | (fs1, none) =>
          match io.mkdir path with
          | some errno => (fs1, some (GoError.pathError "mkdir".toList path errno))
          | none => ((p, Node.dir) :: fs1, none)

/-- `ioutil.WriteFile(name, data, perm)`: create or truncate the file and write
`data`; a directory of that name is `EISDIR` (21).  A write that fails half way
leaves the bytes written so far. -/
def WriteFile (io : Faults) (fs : FS) (name : GoString) (data : Bytes) : FS × Option GoError :=
  match Stat fs name with
  | some Node.dir => (fs, some (GoError.pathError "open".toList name 21))
  | _ =>
    match io.write with
    | WriteFault.openFails errno => (fs, some (GoError.pathError "open".toList name errno))
    | WriteFault.shortWrite n errno =>
      ((name, Node.file (data.take n)) :: fs, some (GoError.pathError "write".toList name errno))
    | WriteFault.ok => ((name, Node.file data) :: fs, none)

/-! ## `AuthTool` -/

/-- What a call of `AuthTool` returns and does: the two return values, the file
system it leaves and the lines it prints on standard output. -/
structure Outcome where
  path : GoString
  err : Option GoError
  fs : FS
  out : List GoString
  deriving DecidableEq, Repr

/-- Lines 81-89 of `AuthTool`: the file suffix and the base directory of an
auth type, `none` for an unknown one. -/
def AuthTool.kind (authType : GoString) : Option (GoString × GoString) :=
  if authType = "creds".toList then some (".creds".toList, "/nack-accounts/creds/".toList)
  else if authType = "nkey".toList then some (".nk".toList, "/nack-accounts/keys/".toList)
  else none

/-- Lines 91-106 of `AuthTool`: the bytes `contents` decoded from the raw
string, or the error returned there. -/
def AuthTool.contents (tbl : Char → Char) (auth authType : GoString) : Except GoError Bytes :=
  match SplitN auth ':' 2 with
  | p0 :: p1 :: _ =>
    let lowerP0 := ToLower tbl (TrimSpace p0)
    if lowerP0 = authType then
      Except.ok (toBytes (ReplaceAll (TrimSpace p1) "\\n".toList [Char.ofNat 10]))
    else if lowerP0 = "base64".toList then
      base64.DecodeString (TrimSpace p1)
    else Except.ok []
  | _ => Except.error (GoError.errorf ("not supported auth or file not exist: ".toList ++ auth))

/-- Line 108 of `AuthTool`, the call `fmt.Sprintf("%s%x%s", basePath,
md5.Sum(contents), fileType)`: the base directory, the digest of the content in
lowercase hexadecimal, the suffix. -/
def AuthTool.filepath (basePath : GoString) (contents : Bytes) (fileType : GoString) : GoString :=
  basePath ++ hexString (md5.Sum contents) ++ fileType

/-- Line 118 of `AuthTool`: the line `fmt.Println("cache to new file:",
filepath)` prints. -/
def AuthTool.cacheLine (filepath : GoString) : GoString :=
  "cache to new file: ".toList ++ filepath

/-- The function `AuthTool(auth, authType)`, run in the file system `fs` with
the case table `tbl` of the `unicode` package and the faults `io`. -/
def AuthTool (tbl : Char → Char) (io : Faults) (fs : FS) (auth authType : GoString) : Outcome :=
  if checkFileIsExist fs auth then
    { path := auth, err := none, fs := fs, out := [] }
  else
    match AuthTool.kind authType with
    | none =>
      { path := [], err := some (GoError.errorf ("unknown auth type: ".toList ++ authType)),
        fs := fs, out := [] }
    | some (fileType, basePath) =>
      match AuthTool.contents tbl auth authType with
      | Except.error e => { path := [], err := some e, fs := fs, out := [] }
      | Except.ok contents =>
        let filepath := AuthTool.filepath basePath contents fileType
        if !checkFileIsExist fs filepath then
          match MkdirAll io fs basePath with
          | (fs1, some e) => { path := [], err := some e, fs := fs1, out := [] }
          | (fs1, none) =>
            match WriteFile io fs1 filepath contents with
            | (fs2, some e) => { path := [], err := some e, fs := fs2, out := [] }
            | (fs2, none) =>
              { path := filepath, err := none, fs := fs2, out := [AuthTool.cacheLine filepath] }
        else { path := filepath, err := none, fs := fs, out := [] }

/-! ## `AddAuthToOptions` -/

/-- Modelled from the spec: the struct `Options` of package `jetstream` is
declared in another file of the repository; these are the two fields
`AddAuthToOptions` reads, each possibly empty. -/
structure Options where
  NATSCredentials : GoString
  NATSNKey : GoString
  deriving DecidableEq, Repr

/-- Modelled from the spec: the struct `apis.ServerSpec` is declared in
another package of the repository; these are the two fields `AddAuthToOptions`
reads, each possibly empty. -/
structure ServerSpec where
  Creds : GoString
  Nkey : GoString
  deriving DecidableEq, Repr

/-- The argument `source interface{}` of `AddAuthToOptions`: a value of dynamic
type `Options`, of dynamic type `apis.ServerSpec`, or any other value, kept as
the text the verb `%v` prints for it. -/
inductive Source where
  | options (o : Options)
  | serverSpec (s : ServerSpec)
  | other (shown : GoString)
  deriving DecidableEq, Repr

/-- A `nats.Option`, as far as this file meets them: the option
`nats.UserCredentials(file)`, a signing-key option for a public key and its
seed file, or an option the caller had already. -/
inductive NatsOption where
  | userCredentials (file : GoString)
  | nkey (pub : GoString) (seedFile : GoString)
  | given (id : Nat)
  deriving DecidableEq, Repr

/-- What a call of `AddAuthToOptions` returns and does: the two return values,
the file system it leaves, the lines printed, and the calls of `AuthTool` it
made, each as its pair of arguments. -/
structure Resolved where
  opts : List NatsOption
  err : Option GoError
  fs : FS
  out : List GoString
  calls : List (GoString × GoString)
  deriving DecidableEq, Repr

/-- Lines 44-61 of `AddAuthToOptions`, once the two sources are read from the
descriptor.  The library function `nats.NkeyOptionFromSeed`, which reads the
seed file, is the argument `seed`: applied to the file system and the file name
it returns the option or its error. -/
def AddAuthToOptions.resolve (tbl : Char → Char)
    (seed : FS → GoString → Except GoError NatsOption) (io : Faults) (fs : FS)
    (credsSource nkeySource : GoString) (opts : List NatsOption) : Resolved :=
  if credsSource ≠ [] then
    let r := AuthTool tbl io fs credsSource "creds".toList
    match r.err with
    | some e =>
      { opts := opts, err := some e, fs := r.fs, out := r.out,
        calls := [(credsSource, "creds".toList)] }
    | none =>
      { opts := opts ++ [NatsOption.userCredentials r.path], err := none, fs := r.fs,
        out := r.out, calls := [(credsSource, "creds".toList)] }
  else if nkeySource ≠ [] then
    let r := AuthTool tbl io fs nkeySource "nkey".toList
    match r.err with
    | some e =>
      { opts := opts, err := some e, fs := r.fs, out := r.out,
        calls := [(nkeySource, "nkey".toList)] }
    | none =>
      match seed r.fs r.path with
      | Except.error _ =>
        { opts := opts, err := none, fs := r.fs, out := r.out,
          calls := [(nkeySource, "nkey".toList)] }
      | Except.ok opt =>
        { opts := opts ++ [opt], err := none, fs := r.fs, out := r.out,
          calls := [(nkeySource, "nkey".toList)] }
  else { opts := opts, err := none, fs := fs, out := [], calls := [] }

/-- The function `AddAuthToOptions(source, opts)`, run in the file system `fs`:
lines 34-42 read the two sources from a descriptor of a known type and return
the error `unknown type: <source>` for any other value. -/
def AddAuthToOptions (tbl : Char → Char) (seed : FS → GoString → Except GoError NatsOption)
    (io : Faults) (fs : FS) (source : Source) (opts : List NatsOption) : Resolved :=
  match source with
  | Source.options o =>
    AddAuthToOptions.resolve tbl seed io fs o.NATSCredentials o.NATSNKey opts
  | Source.serverSpec s => AddAuthToOptions.resolve tbl seed io fs s.Creds s.Nkey opts
  | Source.other shown =>
    { opts := opts, err := some (GoError.errorf ("unknown type: ".toList ++ shown)),
      fs := fs, out := [], calls := [] }

/-! ## The cache invariant -/

/-- The cache is consistent: a regular file named `<h>.creds` in
`/nack-accounts/creds/` or `<h>.nk` in `/nack-accounts/keys/` has a content
whose MD5 digest in hexadecimal is `h`. -/
def CacheConsistent (fs : FS) : Prop :=
  ∀ (h : GoString) (c : Bytes),
    (Stat fs ("/nack-accounts/creds/".toList ++ h ++ ".creds".toList) = some (Node.file c) →
      hexString (md5.Sum c) = h) ∧
    (Stat fs ("/nack-accounts/keys/".toList ++ h ++ ".nk".toList) = some (Node.file c) →
      hexString (md5.Sum c) = h)

/-! ## Facts about the string functions -/

theorem takeWhile_ne_append (a b : GoString) (sep : Char) (h : sep ∉ a) :
    (a ++ sep :: b).takeWhile (fun c => c != sep) = a ∧
      (a ++ sep :: b).dropWhile (fun c => c != sep) = sep :: b := by
  induction a with
  | nil => simp [List.takeWhile, List.dropWhile]
  | cons x xs ih =>
    have hx : (x != sep) = true := by
      have : x ≠ sep := fun e => h (by simp [e])
      simpa using this
    have hxs : sep ∉ xs := fun m => h (by simp [m])
    have := ih hxs
    simp [List.takeWhile, List.dropWhile, hx, this.1, this.2]

theorem SplitN_two_of_not_mem (s : GoString) (sep : Char) (h : sep ∉ s) :
    SplitN s sep 2 = [s] := by
  have hall : ∀ c ∈ s, (fun c => c != sep) c = true := by
    intro c hc
    have : c ≠ sep := fun e => h (e ▸ hc)
    simpa using this
  have h1 := List.takeWhile_eq_self_iff.mpr hall
  have h2 := List.dropWhile_eq_nil_iff.mpr hall
  simp only [SplitN, List.span_eq_take_drop, h1, h2]

theorem SplitN_two_append (a b : GoString) (sep : Char) (h : sep ∉ a) :
    SplitN (a ++ sep :: b) sep 2 = [a, b] := by
  have key := takeWhile_ne_append a b sep h
  simp only [SplitN, List.span_eq_take_drop, key.1, key.2]

theorem exists_split_of_mem (s : GoString) (sep : Char) (h : sep ∈ s) :
    ∃ a b, s = a ++ sep :: b ∧ sep ∉ a := by
  induction s with
  | nil => simp at h
  | cons x xs ih =>
    by_cases hx : x = sep
    · exact ⟨[], xs, by simp [hx], by simp⟩
    · have hm : sep ∈ xs := by
        rcases List.mem_cons.mp h with e | m
        · exact absurd e.symm hx
        · exact m
      obtain ⟨a, b, hab, ha⟩ := ih hm
      refine ⟨x :: a, b, by simp [hab], ?_⟩
      intro m
      rcases List.mem_cons.mp m with e | m
      · exact hx e.symm
      · exact ha m

/-- `ReplaceAll` with the pattern backslash-n does what the specification says. -/
theorem ReplaceAll_backslash_n (s : GoString) :
    ReplaceAll s "\\n".toList [Char.ofNat 10] = unescapeNewlines s := by
  unfold ReplaceAll
  induction s using unescapeNewlines.induct with
  | case1 rest ih =>
    rw [unescapeNewlines, ← ih]
    simp [ReplaceAll.go, List.isPrefixOf]
  | case2 c rest hne ih =>
    rw [unescapeNewlines, ← ih]
    · rw [ReplaceAll.go]
      have hp : List.isPrefixOf "\\n".toList (c :: rest) = false := by
        cases rest with
        | nil => simp [List.isPrefixOf]
        | cons d rest1 =>
          simp only [String.toList, List.isPrefixOf, Bool.and_true, Bool.and_eq_false_imp,
            beq_iff_eq, beq_eq_false_iff_ne, ne_eq]
          intro h1 h2
          exact hne rest1 h1.symm (by rw [h2])
      rw [hp]
      simp
    · intro rest1 h1 h2
      exact hne rest1 h1 h2
  | case3 => rfl

/-! ## Facts about the errors of the library calls -/

theorem base64_afterPadding_error (out src : Bytes) (si : Nat) (e : GoError)
    (h : base64.afterPadding out src si = Except.error e) : ∃ n, e = GoError.corruptInput n := by
  unfold base64.afterPadding at h
  split at h
  · cases h
  · injection h with h; exact ⟨_, h.symm⟩

theorem base64_decode_error (src : Bytes) :
    ∀ (out dbuf : Bytes) (si : Nat) (e : GoError),
      base64.decode out dbuf src si = Except.error e → ∃ n, e = GoError.corruptInput n := by
  induction src with
  | nil =>
    intro out dbuf si e h
    unfold base64.decode at h
    split at h
    · cases h
    · injection h with h; exact ⟨_, h.symm⟩
  | cons c rest ih =>
    intro out dbuf si e h
    unfold base64.decode at h
    split at h
    · split at h
      · exact ih _ _ _ _ h
      · exact ih _ _ _ _ h
    · split at h
      · exact ih _ _ _ _ h
      · split at h
        · injection h with h; exact ⟨_, h.symm⟩
        · split at h
          · injection h with h; exact ⟨_, h.symm⟩
          · split at h
            · split at h
              · injection h with h; exact ⟨_, h.symm⟩
              · split at h
                · injection h with h; exact ⟨_, h.symm⟩
                · exact base64_afterPadding_error _ _ _ _ h
            · exact base64_afterPadding_error _ _ _ _ h

theorem MkdirAll_go_error (io : Faults) (ps : List GoString) :
    ∀ (fs fs1 : FS) (e : GoError), MkdirAll.go io ps fs = (fs1, some e) →
      ∃ op path n, e = GoError.pathError op path n := by
  induction ps with
  | nil => intro fs fs1 e h; simp [MkdirAll.go] at h
  | cons p parents ih =>
    intro fs fs1 e h
    unfold MkdirAll.go at h
    split at h
    · simp at h
    · simp only [Prod.mk.injEq, Option.some.injEq] at h; exact ⟨_, _, _, h.2.symm⟩
    · split at h
      · rename_i heq
        simp only [Prod.mk.injEq, Option.some.injEq] at h
        obtain ⟨_, rfl⟩ := h
        exact ih _ _ _ heq
      · split at h
        · simp only [Prod.mk.injEq, Option.some.injEq] at h; exact ⟨_, _, _, h.2.symm⟩
        · simp at h

/-- What `MkdirAll` does, in terms of its worker on the parents: nothing; or
the walk of all directories; or the walk of the parents, with the last directory
made if that walk and the last `mkdir` succeed. -/
theorem MkdirAll_shape (io : Faults) (fs fs1 : FS) (path : GoString) (oe : Option GoError)
    (h : MkdirAll io fs path = (fs1, oe)) :
    (fs1 = fs ∧ (oe = none ∨ ∃ n, oe = some (GoError.pathError "mkdir".toList path n))) ∨
    (MkdirAll.go io (pathPrefixes path) fs = (fs1, oe)) ∨
    (∃ p parents oe2, pathPrefixes path = p :: parents ∧
      MkdirAll.go io parents fs = (fs1, oe2) ∧
      (oe = oe2 ∨ ∃ n, oe = some (GoError.pathError "mkdir".toList path n))) ∨
    (∃ p parents fs0, pathPrefixes path = p :: parents ∧ Stat fs p = none ∧
      MkdirAll.go io parents fs = (fs0, none) ∧ fs1 = (p, Node.dir) :: fs0 ∧ oe = none) := by
  unfold MkdirAll at h
  split at h
  · split at h
    · simp only [Prod.mk.injEq] at h
      exact Or.inl ⟨h.1.symm, Or.inr ⟨2, h.2.symm⟩⟩
    · simp only [Prod.mk.injEq] at h
      exact Or.inl ⟨h.1.symm, Or.inl h.2.symm⟩
  · rename_i p parents hps
    split at h
    · right; left
      rw [hps]; exact h
    · split at h
      · simp only [Prod.mk.injEq] at h
        exact Or.inl ⟨h.1.symm, Or.inl h.2.symm⟩
      · split at h
        · rename_i fs2 e heq
          simp only [Prod.mk.injEq] at h
          right; right; left
          exact ⟨p, parents, some e, hps, by rw [← h.1]; exact heq, Or.inl h.2.symm⟩
        · rename_i fs2 heq
          simp only [Prod.mk.injEq] at h
          right; right; left
          exact ⟨p, parents, none, hps, by rw [← h.1]; exact heq, Or.inr ⟨17, h.2.symm⟩⟩
      · rename_i hnone
        split at h
        · rename_i fs2 e heq
          simp only [Prod.mk.injEq] at h
          right; right; left
          exact ⟨p, parents, some e, hps, by rw [← h.1]; exact heq, Or.inl h.2.symm⟩
        · rename_i fs2 heq
          split at h
          · rename_i errno _
            simp only [Prod.mk.injEq] at h
            right; right; left
            exact ⟨p, parents, none, hps, by rw [← h.1]; exact heq, Or.inr ⟨errno, h.2.symm⟩⟩
          · simp only [Prod.mk.injEq] at h
            right; right; right
            exact ⟨p, parents, fs2, hps, hnone, heq, h.1.symm, h.2.symm⟩

theorem MkdirAll_error (io : Faults) (fs fs1 : FS) (path : GoString) (e : GoError)
    (h : MkdirAll io fs path = (fs1, some e)) : ∃ op p n, e = GoError.pathError op p n := by
  rcases MkdirAll_shape io fs fs1 path _ h with ⟨_, h1 | ⟨n, h1⟩⟩ | h1 |
    ⟨p, parents, oe2, _, h1, h2 | ⟨n, h2⟩⟩ | ⟨_, _, _, _, _, _, _, h1⟩
  · cases h1
  · injection h1 with h1; exact ⟨_, _, _, h1⟩
  · exact MkdirAll_go_error io _ _ _ _ h1
  · rw [← h2] at h1; exact MkdirAll_go_error io _ _ _ _ h1
  · injection h2 with h2; exact ⟨_, _, _, h2⟩
  · cases h1

theorem WriteFile_error (io : Faults) (fs fs2 : FS) (name : GoString) (data : Bytes)
    (e : GoError) (h : WriteFile io fs name data = (fs2, some e)) :
    ∃ op path n, e = GoError.pathError op path n := by
  unfold WriteFile at h
  split at h
  · simp only [Prod.mk.injEq, Option.some.injEq] at h; exact ⟨_, _, _, h.2.symm⟩
  · split at h
    · simp only [Prod.mk.injEq, Option.some.injEq] at h; exact ⟨_, _, _, h.2.symm⟩
    · simp only [Prod.mk.injEq, Option.some.injEq] at h; exact ⟨_, _, _, h.2.symm⟩
    · simp at h

/-! ## The first steps of `AuthTool`: pass-through, kind, format -/

/-- Every error of `AuthTool.contents` on a raw string with a colon comes from
the base64 decoder. -/
theorem contents_error_of_colon (tbl : Char → Char) (auth authType : GoString) (e : GoError)
    (hc : ':' ∈ auth) (h : AuthTool.contents tbl auth authType = Except.error e) :
    ∃ n, e = GoError.corruptInput n := by
  obtain ⟨a, b, rfl, ha⟩ := exists_split_of_mem auth ':' hc
  unfold AuthTool.contents at h
  rw [SplitN_two_append a b ':' ha] at h
  simp only at h
  split at h
  · cases h
  · split at h
    · exact base64_decode_error _ _ _ _ _ h
    · cases h

theorem contents_of_no_colon (tbl : Char → Char) (auth authType : GoString) (hc : ':' ∉ auth) :
    AuthTool.contents tbl auth authType =
      Except.error (GoError.errorf ("not supported auth or file not exist: ".toList ++ auth)) := by
  unfold AuthTool.contents
  rw [SplitN_two_of_not_mem auth ':' hc]

/-- The errors `AuthTool` returns for a known kind and a raw string with a
colon that names no file: none, a base64 error or a path error. -/
theorem AuthTool_error_of_colon (tbl : Char → Char) (io : Faults) (fs : FS)
    (auth K : GoString) (hK : K = "creds".toList ∨ K = "nkey".toList)
    (hne : checkFileIsExist fs auth = false) (hc : ':' ∈ auth) (msg : GoString) :
    (AuthTool tbl io fs auth K).err ≠ some (GoError.errorf msg) := by
  have hkind : ∃ ft bp, AuthTool.kind K = some (ft, bp) := by
    rcases hK with rfl | rfl
    · exact ⟨_, _, rfl⟩
    · exact ⟨_, _, rfl⟩
  obtain ⟨ft, bp, hk⟩ := hkind
  unfold AuthTool
  rw [hne, hk]
  simp only [Bool.false_eq_true, if_false]
  cases hcont : AuthTool.contents tbl auth K with
  | error e =>
    obtain ⟨n, rfl⟩ := contents_error_of_colon tbl auth K e hc hcont
    simp
  | ok contents =>
    simp only
    split
    · cases hm : MkdirAll io fs bp with
      | mk fs1 oe =>
        cases oe with
        | some e =>
          obtain ⟨op, path, n, rfl⟩ := MkdirAll_error io _ _ _ _ hm
          simp
        | none =>
          simp only
          cases hw : WriteFile io fs1 (AuthTool.filepath bp contents ft) contents with
          | mk fs2 oe2 =>
            cases oe2 with
            | some e =>
              obtain ⟨op, path, n, rfl⟩ := WriteFile_error io _ _ _ _ _ hw
              simp
            | none => simp
    · simp

theorem kind_infix_message_iff (auth K : GoString) (hK : K = "creds".toList ∨ K = "nkey".toList) :
    K <:+: "not supported auth or file not exist: ".toList ++ auth ↔ K <:+: auth := by
  rcases hK with rfl | rfl <;>
    simp [List.infix_cons_iff, List.cons_prefix_cons]

/-! ## Decoding and materialization -/

theorem lower_trim_creds (tbl : Char → Char) :
    ToLower tbl (TrimSpace "creds".toList) = "creds".toList := rfl

theorem lower_trim_nkey (tbl : Char → Char) :
    ToLower tbl (TrimSpace "nkey".toList) = "nkey".toList := rfl

theorem lower_trim_base64 (tbl : Char → Char) :
    ToLower tbl (TrimSpace "base64".toList) = "base64".toList := rfl

/-- The literal form: the content of `K:text` for the kind `K`. -/
theorem contents_literal (tbl : Char → Char) (K text : GoString)
    (hK : K = "creds".toList ∨ K = "nkey".toList) :
    AuthTool.contents tbl (K ++ ':' :: text) K =
      Except.ok (toBytes (ReplaceAll (TrimSpace text) "\\n".toList [Char.ofNat 10])) := by
  have hc : ':' ∉ K := by rcases hK with rfl | rfl <;> decide
  have hl : ToLower tbl (TrimSpace K) = K := by
    rcases hK with rfl | rfl
    · exact lower_trim_creds tbl
    · exact lower_trim_nkey tbl
  unfold AuthTool.contents
  rw [SplitN_two_append K text ':' hc]
  simp only [hl, if_true]

/-- The base64 form: the content of `base64:payload` for a kind `K`. -/
theorem contents_base64 (tbl : Char → Char) (K payload : GoString)
    (hK : K = "creds".toList ∨ K = "nkey".toList) :
    AuthTool.contents tbl ("base64".toList ++ ':' :: payload) K =
      base64.DecodeString (TrimSpace payload) := by
  have hne : "base64".toList ≠ K := by rcases hK with rfl | rfl <;> decide
  unfold AuthTool.contents
  rw [SplitN_two_append "base64".toList payload ':' (by decide)]
  simp only [lower_trim_base64 tbl, if_neg hne, if_true]

theorem colon_mem_of_contents_ok (tbl : Char → Char) (auth authType : GoString) (b : Bytes)
    (h : AuthTool.contents tbl auth authType = Except.ok b) : ':' ∈ auth := by
  by_contra hc
  rw [contents_of_no_colon tbl auth authType hc] at h
  cases h

theorem kind_cases (K ft bp : GoString) (hk : AuthTool.kind K = some (ft, bp)) :
    (K = "creds".toList ∧ ft = ".creds".toList ∧ bp = "/nack-accounts/creds/".toList) ∨
    (K = "nkey".toList ∧ ft = ".nk".toList ∧ bp = "/nack-accounts/keys/".toList) := by
  unfold AuthTool.kind at hk
  split at hk
  · rename_i h
    simp only [Option.some.injEq, Prod.mk.injEq] at hk
    exact Or.inl ⟨h, hk.1.symm, hk.2.symm⟩
  · split at hk
    · rename_i h
      simp only [Option.some.injEq, Prod.mk.injEq] at hk
      exact Or.inr ⟨h, hk.1.symm, hk.2.symm⟩
    · cases hk

theorem kind_of_known (K : GoString) (hK : K = "creds".toList ∨ K = "nkey".toList) :
    ∃ ft bp, AuthTool.kind K = some (ft, bp) := by
  rcases hK with rfl | rfl
  · exact ⟨_, _, rfl⟩
  · exact ⟨_, _, rfl⟩

/-- Lines 108-120 of `AuthTool` once the kind and the content are known. -/
theorem AuthTool_of_contents (tbl : Char → Char) (io : Faults) (fs : FS)
    (auth K ft bp : GoString) (X : Bytes)
    (hne : checkFileIsExist fs auth = false) (hk : AuthTool.kind K = some (ft, bp))
    (hX : AuthTool.contents tbl auth K = Except.ok X) :
    AuthTool tbl io fs auth K =
      if !checkFileIsExist fs (AuthTool.filepath bp X ft) then
        match MkdirAll io fs bp with
        | (fs1, some e) => { path := [], err := some e, fs := fs1, out := [] }
        | (fs1, none) =>
          match WriteFile io fs1 (AuthTool.filepath bp X ft) X with
          | (fs2, some e) => { path := [], err := some e, fs := fs2, out := [] }
          | (fs2, none) =>
            { path := AuthTool.filepath bp X ft, err := none, fs := fs2,
              out := [AuthTool.cacheLine (AuthTool.filepath bp X ft)] }
      else { path := AuthTool.filepath bp X ft, err := none, fs := fs, out := [] } := by
  unfold AuthTool
  rw [hne, hk, hX]
  rfl

theorem WriteFile_ok (io : Faults) (fs fs2 : FS) (name : GoString) (data : Bytes)
    (h : WriteFile io fs name data = (fs2, none)) : fs2 = (name, Node.file data) :: fs := by
  unfold WriteFile at h
  split at h
  · simp at h
  · split at h
    · simp at h
    · simp at h
    · simp only [Prod.mk.injEq] at h; exact h.1.symm

/-- What `AuthTool` does once the kind and the content `X` are known, with
`AuthTool.filepath bp X ft` the target path: a hit returns the target path and
writes nothing; a miss with directory creation and file write succeeding returns
it, leaves `X` in the file of that name and prints the cache line; an error is
an error of `MkdirAll` or of `WriteFile`. -/
theorem AuthTool_materialize (tbl : Char → Char) (io : Faults) (fs : FS)
    (auth K ft bp : GoString) (X : Bytes)
    (hne : checkFileIsExist fs auth = false) (hk : AuthTool.kind K = some (ft, bp))
    (hX : AuthTool.contents tbl auth K = Except.ok X) :
    (checkFileIsExist fs (AuthTool.filepath bp X ft) = true →
      AuthTool tbl io fs auth K =
        { path := AuthTool.filepath bp X ft, err := none, fs := fs, out := [] }) ∧
    (checkFileIsExist fs (AuthTool.filepath bp X ft) = false →
      (MkdirAll io fs bp).2 = none →
      (WriteFile io (MkdirAll io fs bp).1 (AuthTool.filepath bp X ft) X).2 = none →
      AuthTool tbl io fs auth K =
        { path := AuthTool.filepath bp X ft, err := none,
          fs := (AuthTool.filepath bp X ft, Node.file X) :: (MkdirAll io fs bp).1,
          out := [AuthTool.cacheLine (AuthTool.filepath bp X ft)] }) ∧
    ((AuthTool tbl io fs auth K).err ≠ none →
      checkFileIsExist fs (AuthTool.filepath bp X ft) = false ∧
      (AuthTool tbl io fs auth K).path = [] ∧
      ((AuthTool tbl io fs auth K).err = (MkdirAll io fs bp).2 ∨
        ((MkdirAll io fs bp).2 = none ∧
          (AuthTool tbl io fs auth K).err =
            (WriteFile io (MkdirAll io fs bp).1 (AuthTool.filepath bp X ft) X).2))) := by
  rw [AuthTool_of_contents tbl io fs auth K ft bp X hne hk hX]
  generalize AuthTool.filepath bp X ft = P
  cases hex : checkFileIsExist fs P with
  | true => simp
  | false =>
    cases hmk : MkdirAll io fs bp with
    | mk fs1 oe =>
      cases oe with
      | some e => simp
      | none =>
        cases hwf : WriteFile io fs1 P X with
        | mk fs2 oe2 =>
          cases oe2 with
          | some e => simp [hwf]
          | none =>
            have := WriteFile_ok io fs1 fs2 _ _ hwf
            subst this
            simp [hwf]

/-! ## The target path -/

theorem leBytes_length (x k : Nat) : (md5.leBytes x k).length = k := by
  induction k generalizing x with
  | zero => rfl
  | succ k ih => simp [md5.leBytes, ih]

theorem md5_Sum_length (data : Bytes) : (md5.Sum data).length = 16 := by
  simp [md5.Sum, leBytes_length]

theorem hexString_length (bs : Bytes) : (hexString bs).length = 2 * bs.length := by
  induction bs with
  | nil => rfl
  | cons b rest ih => simp [hexString, ih]; omega

theorem hexDigit_mem (n : Nat) (h : n < 16) : hexDigit n ∈ "0123456789abcdef".toList := by
  interval_cases n <;> decide

theorem hexString_mem (bs : Bytes) : ∀ c ∈ hexString bs, c ∈ "0123456789abcdef".toList := by
  induction bs with
  | nil => intro c hc; simp [hexString] at hc
  | cons b rest ih =>
    intro c hc
    simp only [hexString, List.mem_cons] at hc
    rcases hc with rfl | rfl | hc
    · exact hexDigit_mem _ (by omega)
    · exact hexDigit_mem _ (by omega)
    · exact ih c hc

/-! ## Path resolution -/

theorem pathElements_go_append (s : GoString) (hs : '/' ∉ s) :
    ∀ (cur t : GoString), pathElements.go cur (s ++ t) = pathElements.go (cur ++ s) t := by
  induction s with
  | nil => intro cur t; simp
  | cons x xs ih =>
    intro cur t
    have hx : x ≠ '/' := fun e => hs (by simp [e])
    have hxs : '/' ∉ xs := fun m => hs (by simp [m])
    rw [List.cons_append, pathElements.go, if_neg hx, ih hxs]
    simp

theorem pathElements_go_slash (cur rest : GoString) :
    pathElements.go cur ('/' :: rest) = cur :: pathElements.go [] rest := by
  rw [pathElements.go, if_pos rfl]

theorem pathElements_go_last (cur s : GoString) (hs : '/' ∉ s) :
    pathElements.go cur s = [cur ++ s] := by
  have h := pathElements_go_append s hs cur []
  rw [List.append_nil] at h
  rw [h, pathElements.go]

/-- A direct path is looked up as it is written. -/
theorem os_Stat_of_direct (fs : FS) (name : GoString) (h : isDirect name = true) :
    os.Stat fs name = Stat fs name := by
  unfold os.Stat
  rw [if_pos h]

theorem hexString_no_slash (bs : Bytes) : '/' ∉ hexString bs := by
  intro h
  have := hexString_mem bs '/' h
  revert this
  decide

/-- The elements of a target path: the two directories and the file name. -/
theorem pathElements_filepath (K ft bp : GoString) (X : Bytes)
    (hk : AuthTool.kind K = some (ft, bp)) :
    ∃ d, (d = "creds".toList ∨ d = "keys".toList) ∧
      pathElements (AuthTool.filepath bp X ft) =
        [[], "nack-accounts".toList, d, hexString (md5.Sum X) ++ ft] ∧
      6 ≤ (hexString (md5.Sum X) ++ ft).length := by
  have hh := hexString_no_slash (md5.Sum X)
  have hl := hexString_length (md5.Sum X)
  rw [md5_Sum_length] at hl
  rcases kind_cases K ft bp hk with ⟨_, rfl, rfl⟩ | ⟨_, rfl, rfl⟩
  · refine ⟨_, Or.inl rfl, ?_, by rw [List.length_append, hl]; decide⟩
    have hs : '/' ∉ hexString (md5.Sum X) ++ ".creds".toList := by
      intro h
      rcases List.mem_append.mp h with h | h
      · exact hh h
      · revert h; decide
    have e : AuthTool.filepath "/nack-accounts/creds/".toList X ".creds".toList =
        '/' :: ("nack-accounts".toList ++
          '/' :: ("creds".toList ++ '/' :: (hexString (md5.Sum X) ++ ".creds".toList))) := by
      simp [AuthTool.filepath]
    rw [pathElements, e, pathElements_go_slash,
      pathElements_go_append "nack-accounts".toList (by decide), pathElements_go_slash,
      pathElements_go_append "creds".toList (by decide), pathElements_go_slash,
      pathElements_go_last _ _ hs]
    rfl
  · refine ⟨_, Or.inr rfl, ?_, by rw [List.length_append, hl]; decide⟩
    have hs : '/' ∉ hexString (md5.Sum X) ++ ".nk".toList := by
      intro h
      rcases List.mem_append.mp h with h | h
      · exact hh h
      · revert h; decide
    have e : AuthTool.filepath "/nack-accounts/keys/".toList X ".nk".toList =
        '/' :: ("nack-accounts".toList ++
          '/' :: ("keys".toList ++ '/' :: (hexString (md5.Sum X) ++ ".nk".toList))) := by
      simp [AuthTool.filepath]
    rw [pathElements, e, pathElements_go_slash,
      pathElements_go_append "nack-accounts".toList (by decide), pathElements_go_slash,
      pathElements_go_append "keys".toList (by decide), pathElements_go_slash,
      pathElements_go_last _ _ hs]
    rfl

/-- A target path is direct. -/
theorem isDirect_filepath (K ft bp : GoString) (X : Bytes)
    (hk : AuthTool.kind K = some (ft, bp)) : isDirect (AuthTool.filepath bp X ft) = true := by
  obtain ⟨d, hd, he, hl⟩ := pathElements_filepath K ft bp X hk
  unfold isDirect
  rw [he]
  have h0 : hexString (md5.Sum X) ++ ft ≠ [] := by
    intro e; rw [e] at hl; simp at hl
  have h1 : hexString (md5.Sum X) ++ ft ≠ ['.'] := by
    intro e; rw [e] at hl; simp at hl
  have h2 : hexString (md5.Sum X) ++ ft ≠ ['.', '.'] := by
    intro e; rw [e] at hl; simp at hl
  rcases hd with rfl | rfl <;> simp [h0, h1, h2]

/-- `os.Stat` of a target path is the entry of that name. -/
theorem checkFileIsExist_filepath (fs : FS) (K ft bp : GoString) (X : Bytes)
    (hk : AuthTool.kind K = some (ft, bp)) :
    checkFileIsExist fs (AuthTool.filepath bp X ft) =
      (Stat fs (AuthTool.filepath bp X ft)).isSome := by
  unfold checkFileIsExist
  rw [os_Stat_of_direct fs _ (isDirect_filepath K ft bp X hk)]

/-! ## What a call leaves in the file system -/

theorem Stat_cons_ne (fs : FS) (p name : GoString) (n : Node) (h : name ≠ p) :
    Stat ((p, n) :: fs) name = Stat fs name := by
  have : (name == p) = false := by simpa using h
  simp [Stat, List.lookup, this]

theorem Stat_cons_self (fs : FS) (p : GoString) (n : Node) :
    Stat ((p, n) :: fs) p = some n := by
  simp [Stat, List.lookup]

/-- `MkdirAll` changes only the names it visits. -/
theorem MkdirAll_go_Stat (io : Faults) (ps : List GoString) :
    ∀ (fs fs1 : FS) (oe : Option GoError), MkdirAll.go io ps fs = (fs1, oe) →
      ∀ name, name ∉ ps → Stat fs1 name = Stat fs name := by
  induction ps with
  | nil =>
    intro fs fs1 oe h name _
    simp only [MkdirAll.go, Prod.mk.injEq] at h
    rw [h.1]
  | cons p parents ih =>
    intro fs fs1 oe h name hn
    have hnp : name ≠ p := fun e => hn (by simp [e])
    have hnps : name ∉ parents := fun m => hn (by simp [m])
    unfold MkdirAll.go at h
    split at h
    · simp only [Prod.mk.injEq] at h; rw [h.1]
    · simp only [Prod.mk.injEq] at h; rw [h.1]
    · split at h
      · rename_i heq
        simp only [Prod.mk.injEq] at h
        rw [← h.1]
        exact ih _ _ _ heq name hnps
      · rename_i heq
        split at h
        · simp only [Prod.mk.injEq] at h
          rw [← h.1]
          exact ih _ _ _ heq name hnps
        · simp only [Prod.mk.injEq] at h
          rw [← h.1, Stat_cons_ne _ _ _ _ hnp]
          exact ih _ _ _ heq name hnps

/-- `MkdirAll` changes only the names of the directories it visits. -/
theorem MkdirAll_Stat (io : Faults) (fs fs1 : FS) (path : GoString) (oe : Option GoError)
    (h : MkdirAll io fs path = (fs1, oe)) (name : GoString) (hn : name ∉ pathPrefixes path) :
    Stat fs1 name = Stat fs name := by
  rcases MkdirAll_shape io fs fs1 path _ h with ⟨h1, _⟩ | h1 |
    ⟨p, parents, oe2, hps, h1, _⟩ | ⟨p, parents, fs0, hps, _, h1, h2, _⟩
  · rw [h1]
  · exact MkdirAll_go_Stat io _ _ _ _ h1 name hn
  · rw [hps] at hn
    exact MkdirAll_go_Stat io _ _ _ _ h1 name (fun m => hn (by simp [m]))
  · rw [hps] at hn
    rw [h2, Stat_cons_ne _ _ _ _ (fun e => hn (by simp [e]))]
    exact MkdirAll_go_Stat io _ _ _ _ h1 name (fun m => hn (by simp [m]))

/-- `WriteFile` changes only the name it writes. -/
theorem WriteFile_Stat (io : Faults) (fs fs2 : FS) (p : GoString) (data : Bytes)
    (oe : Option GoError) (h : WriteFile io fs p data = (fs2, oe)) (name : GoString)
    (hn : name ≠ p) : Stat fs2 name = Stat fs name := by
  unfold WriteFile at h
  split at h
  · simp only [Prod.mk.injEq] at h; rw [h.1]
  · split at h
    · simp only [Prod.mk.injEq] at h; rw [h.1]
    · simp only [Prod.mk.injEq] at h; rw [← h.1, Stat_cons_ne _ _ _ _ hn]
    · simp only [Prod.mk.injEq] at h; rw [← h.1, Stat_cons_ne _ _ _ _ hn]

theorem hexString_no_colon (bs : Bytes) : ':' ∉ hexString bs := by
  intro h
  have := hexString_mem bs ':' h
  revert this
  decide

theorem filepath_no_colon (K ft bp : GoString) (X : Bytes)
    (hk : AuthTool.kind K = some (ft, bp)) : ':' ∉ AuthTool.filepath bp X ft := by
  have hh := hexString_no_colon (md5.Sum X)
  rcases kind_cases K ft bp hk with ⟨_, rfl, rfl⟩ | ⟨_, rfl, rfl⟩
  · intro h
    simp only [AuthTool.filepath, List.mem_append] at h
    rcases h with (h | h) | h
    · revert h; decide
    · exact hh h
    · revert h; decide
  · intro h
    simp only [AuthTool.filepath, List.mem_append] at h
    rcases h with (h | h) | h
    · revert h; decide
    · exact hh h
    · revert h; decide

theorem pathPrefixes_no_colon (K ft bp : GoString) (hk : AuthTool.kind K = some (ft, bp)) :
    ∀ p ∈ pathPrefixes bp, ':' ∉ p := by
  rcases kind_cases K ft bp hk with ⟨_, _, rfl⟩ | ⟨_, _, rfl⟩ <;> decide

/-- A call of `AuthTool` changes what a name stands for only if the name is the
target path or one of the directories of the base path; in particular never if
the name has a colon. -/
theorem AuthTool_Stat_colon (tbl : Char → Char) (io : Faults) (fs : FS)
    (auth K name : GoString) (hc : ':' ∈ name) :
    Stat (AuthTool tbl io fs auth K).fs name = Stat fs name := by
  unfold AuthTool
  split
  · rfl
  · split
    · rfl
    · rename_i ft bp hk
      have hnps : name ∉ pathPrefixes bp := fun m => pathPrefixes_no_colon K ft bp hk name m hc
      split
      · rfl
      · rename_i contents hX
        have hnp : name ≠ AuthTool.filepath bp contents ft :=
          fun e => filepath_no_colon K ft bp contents hk (e ▸ hc)
        simp only
        split
        · cases hmk : MkdirAll io fs bp with
          | mk fs1 oe =>
            have h1 := MkdirAll_Stat io _ _ _ _ hmk name hnps
            cases oe with
            | some e => exact h1
            | none =>
              simp only
              cases hwf : WriteFile io fs1 (AuthTool.filepath bp contents ft) contents with
              | mk fs2 oe2 =>
                have h2 := WriteFile_Stat io _ _ _ _ _ hwf name hnp
                cases oe2 with
                | some e => simp only; rw [h2, h1]
                | none => simp only; rw [h2, h1]
        · rfl

/-- The path of a call that succeeds on an `auth` that names no existing file is
the target path of its kind and content. -/
theorem AuthTool_ok_path (tbl : Char → Char) (io : Faults) (fs : FS)
    (auth K : GoString) (hne : checkFileIsExist fs auth = false)
    (hok : (AuthTool tbl io fs auth K).err = none) :
    ∃ ft bp X, AuthTool.kind K = some (ft, bp) ∧ AuthTool.contents tbl auth K = Except.ok X ∧
      (AuthTool tbl io fs auth K).path = AuthTool.filepath bp X ft ∧
      checkFileIsExist (AuthTool tbl io fs auth K).fs (AuthTool.filepath bp X ft) = true ∧
      ((AuthTool tbl io fs auth K).out = [] ∧ (AuthTool tbl io fs auth K).fs = fs ∨
        (AuthTool tbl io fs auth K).out = [AuthTool.cacheLine (AuthTool.filepath bp X ft)] ∧
          checkFileIsExist fs (AuthTool.filepath bp X ft) = false ∧
          Stat (AuthTool tbl io fs auth K).fs (AuthTool.filepath bp X ft) = some (Node.file X)) := by
  cases hkind : AuthTool.kind K with
  | none =>
    exfalso
    unfold AuthTool at hok
    rw [hne, hkind] at hok
    simp at hok
  | some p =>
    obtain ⟨ft, bp⟩ := p
    cases hX : AuthTool.contents tbl auth K with
    | error e =>
      exfalso
      unfold AuthTool at hok
      rw [hne, hkind, hX] at hok
      simp at hok
    | ok X =>
      refine ⟨ft, bp, X, rfl, rfl, ?_⟩
      rw [AuthTool_of_contents tbl io fs auth K ft bp X hne hkind hX] at hok ⊢
      cases hex : checkFileIsExist fs (AuthTool.filepath bp X ft) with
      | true => simp [hex]
      | false =>
        rw [hex] at hok
        simp only [Bool.not_false, if_true] at hok ⊢
        cases hmk : MkdirAll io fs bp with
        | mk fs1 oe =>
          rw [hmk] at hok
          cases oe with
          | some e => simp at hok
          | none =>
            simp only at hok ⊢
            cases hwf : WriteFile io fs1 (AuthTool.filepath bp X ft) X with
            | mk fs2 oe2 =>
              rw [hwf] at hok
              cases oe2 with
              | some e => simp at hok
              | none =>
                have := WriteFile_ok io fs1 fs2 _ _ hwf
                subst this
                have hc := checkFileIsExist_filepath
                  ((AuthTool.filepath bp X ft, Node.file X) :: fs1) K ft bp X hkind
                rw [Stat_cons_self] at hc
                simp [hc, Stat_cons_self]

/-! ## Calling `AuthTool` again -/

/-- A call that prints the cache line took no pass-through and succeeded. -/
theorem AuthTool_out_nonempty (tbl : Char → Char) (io : Faults) (fs : FS)
    (auth K : GoString) (h : (AuthTool tbl io fs auth K).out ≠ []) :
    checkFileIsExist fs auth = false ∧ (AuthTool tbl io fs auth K).err = none := by
  unfold AuthTool at h ⊢
  split at h
  · exact absurd rfl h
  · rename_i hne
    simp only [Bool.not_eq_true] at hne
    rw [hne]
    refine ⟨rfl, ?_⟩
    simp only [Bool.false_eq_true, if_false]
    split at h
    · exact absurd rfl h
    · split at h
      · exact absurd rfl h
      · simp only at h ⊢
        split at h
        · rename_i hex
          rw [if_pos hex]
          split at h
          · exact absurd rfl h
          · split at h
            · exact absurd rfl h
            · rfl
        · exact absurd rfl h

/-- A call leaves a direct name with a colon (one without `.`, `..` or empty
elements, in a file system without links) as it found it: it names a file after
the call exactly if it did before. -/
theorem checkFileIsExist_after_of_direct (tbl : Char → Char) (io : Faults) (fs : FS)
    (auth K name : GoString) (hd : isDirect name = true) (hc : ':' ∈ name) :
    checkFileIsExist (AuthTool tbl io fs auth K).fs name = checkFileIsExist fs name := by
  unfold checkFileIsExist
  rw [os_Stat_of_direct _ name hd, os_Stat_of_direct _ name hd,
    AuthTool_Stat_colon tbl io fs auth K name hc]

/-- A second call on the file system a successful call left, where `auth`
names a file after the first call only if it did before. -/
theorem AuthTool_again (tbl : Char → Char) (io1 io2 : Faults) (fs0 : FS) (auth K : GoString)
    (hok : (AuthTool tbl io1 fs0 auth K).err = none)
    (hsame : checkFileIsExist (AuthTool tbl io1 fs0 auth K).fs auth =
      checkFileIsExist fs0 auth) :
    AuthTool tbl io2 (AuthTool tbl io1 fs0 auth K).fs auth K =
      { path := (AuthTool tbl io1 fs0 auth K).path, err := none,
        fs := (AuthTool tbl io1 fs0 auth K).fs, out := [] } := by
  cases hex : checkFileIsExist fs0 auth with
  | true =>
    have h1 : AuthTool tbl io1 fs0 auth K = { path := auth, err := none, fs := fs0, out := [] } := by
      unfold AuthTool; rw [hex]; rfl
    rw [h1]
    unfold AuthTool
    rw [hex]
    rfl
  | false =>
    obtain ⟨ft, bp, X, hk, hX, hp, hP, _⟩ := AuthTool_ok_path tbl io1 fs0 auth K hex hok
    have hne2 : checkFileIsExist (AuthTool tbl io1 fs0 auth K).fs auth = false := by
      rw [hsame, hex]
    rw [(AuthTool_materialize tbl io2 _ auth K ft bp X hne2 hk hX).1 hP, hp]

/-! ## The base64 decoder inverts the encoder -/

theorem base64_encodeChar_spec :
    ∀ v, v < 64 →
      utf8EncodeRune (base64.encodeChar v) = [(base64.encodeChar v).toNat] ∧
      base64.decodeMap (base64.encodeChar v).toNat = some v ∧
      IsSpace (base64.encodeChar v) = false := by
  decide

theorem toBytes_cons (c : Char) (s : GoString) : toBytes (c :: s) = utf8EncodeRune c ++ toBytes s := by
  simp [toBytes]

theorem toBytes_encodeChar (v : Nat) (hv : v < 64) (s : GoString) :
    toBytes (base64.encodeChar v :: s) = (base64.encodeChar v).toNat :: toBytes s := by
  rw [toBytes_cons, (base64_encodeChar_spec v hv).1]
  rfl

theorem base64_decode_value (out dbuf rest : Bytes) (si c v : Nat)
    (h : base64.decodeMap c = some v) :
    base64.decode out dbuf (c :: rest) si =
      if dbuf.length = 3 then
        base64.decode (out ++ base64.quantumBytes (dbuf ++ [v])) [] rest (si + 1)
      else base64.decode out (dbuf ++ [v]) rest (si + 1) := by
  rw [base64.decode, h]

theorem base64_quantum_three (a b c : Nat) (ha : a < 256) (hb : b < 256) (hc : c < 256) :
    base64.quantumBytes [a / 4, a % 4 * 16 + b / 16, b % 16 * 4 + c / 64, c % 64] = [a, b, c] := by
  simp only [base64.quantumBytes, List.getD_cons_zero, List.getD_cons_succ, List.length_cons,
    List.length_nil]
  have h1 : ((a / 4) * 262144 + (a % 4 * 16 + b / 16) * 4096 + (b % 16 * 4 + c / 64) * 64 + c % 64)
      / 65536 % 256 = a := by omega
  have h2 : ((a / 4) * 262144 + (a % 4 * 16 + b / 16) * 4096 + (b % 16 * 4 + c / 64) * 64 + c % 64)
      / 256 % 256 = b := by omega
  have h3 : ((a / 4) * 262144 + (a % 4 * 16 + b / 16) * 4096 + (b % 16 * 4 + c / 64) * 64 + c % 64)
      % 256 = c := by omega
  rw [h1, h2, h3]
  rfl

theorem base64_quantum_two (a b : Nat) (ha : a < 256) (hb : b < 256) :
    base64.quantumBytes [a / 4, a % 4 * 16 + b / 16, b % 16 * 4] = [a, b] := by
  simp only [base64.quantumBytes, List.getD_cons_zero, List.getD_cons_succ, List.length_cons,
    List.length_nil, List.getD_nil]
  have h1 : ((a / 4) * 262144 + (a % 4 * 16 + b / 16) * 4096 + (b % 16 * 4) * 64 + 0)
      / 65536 % 256 = a := by omega
  have h2 : ((a / 4) * 262144 + (a % 4 * 16 + b / 16) * 4096 + (b % 16 * 4) * 64 + 0)
      / 256 % 256 = b := by omega
  rw [h1, h2]
  rfl

theorem base64_quantum_one (a : Nat) (ha : a < 256) :
    base64.quantumBytes [a / 4, a % 4 * 16] = [a] := by
  simp only [base64.quantumBytes, List.getD_cons_zero, List.getD_cons_succ, List.length_cons,
    List.length_nil, List.getD_nil]
  have h1 : ((a / 4) * 262144 + (a % 4 * 16) * 4096 + 0 * 64 + 0) / 65536 % 256 = a := by omega
  rw [h1]
  rfl

/-- Decoding the standard encoding of a byte sequence gives the sequence back. -/
theorem base64_decode_encode (b : Bytes) :
    (∀ x ∈ b, x < 256) → ∀ (out : Bytes) (si : Nat),
      base64.decode out [] (toBytes (base64.EncodeToString b)) si = Except.ok (out ++ b) := by
  induction b using base64.EncodeToString.induct with
  | case1 =>
    intro _ out si
    simp [base64.EncodeToString, toBytes, base64.decode]
  | case2 a =>
    intro hb out si
    have ha : a < 256 := hb a (by simp)
    have e1 := base64_encodeChar_spec (a / 4) (by omega)
    have e2 := base64_encodeChar_spec (a % 4 * 16) (by omega)
    rw [base64.EncodeToString, toBytes_encodeChar _ (by omega), toBytes_encodeChar _ (by omega),
      base64_decode_value _ _ _ _ _ _ e1.2.1, if_neg (by simp),
      base64_decode_value _ _ _ _ _ _ e2.2.1, if_neg (by simp)]
    have hq := base64_quantum_one a ha
    simp only [List.nil_append, List.cons_append] at hq ⊢
    have ht : toBytes ['=', '='] = [61, 61] := by decide
    rw [ht, base64.decode]
    simp [base64.decodeMap, base64.isNewline, base64.afterPadding, hq]
  | case3 a b1 =>
    intro hb out si
    have ha : a < 256 := hb a (by simp)
    have hb1 : b1 < 256 := hb b1 (by simp)
    have e1 := base64_encodeChar_spec (a / 4) (by omega)
    have e2 := base64_encodeChar_spec (a % 4 * 16 + b1 / 16) (by omega)
    have e3 := base64_encodeChar_spec (b1 % 16 * 4) (by omega)
    rw [base64.EncodeToString, toBytes_encodeChar _ (by omega), toBytes_encodeChar _ (by omega),
      toBytes_encodeChar _ (by omega),
      base64_decode_value _ _ _ _ _ _ e1.2.1, if_neg (by simp),
      base64_decode_value _ _ _ _ _ _ e2.2.1, if_neg (by simp),
      base64_decode_value _ _ _ _ _ _ e3.2.1, if_neg (by simp)]
    have hq := base64_quantum_two a b1 ha hb1
    simp only [List.nil_append, List.cons_append] at hq ⊢
    have ht : toBytes ['='] = [61] := by decide
    rw [ht, base64.decode]
    simp [base64.decodeMap, base64.isNewline, base64.afterPadding, hq]
  | case4 a b1 c rest ih =>
    intro hb out si
    have ha : a < 256 := hb a (by simp)
    have hb1 : b1 < 256 := hb b1 (by simp)
    have hc : c < 256 := hb c (by simp)
    have hrest : ∀ x ∈ rest, x < 256 := fun x hx => hb x (by simp [hx])
    have e1 := base64_encodeChar_spec (a / 4) (by omega)
    have e2 := base64_encodeChar_spec (a % 4 * 16 + b1 / 16) (by omega)
    have e3 := base64_encodeChar_spec (b1 % 16 * 4 + c / 64) (by omega)
    have e4 := base64_encodeChar_spec (c % 64) (by omega)
    rw [base64.EncodeToString, toBytes_encodeChar _ (by omega), toBytes_encodeChar _ (by omega),
      toBytes_encodeChar _ (by omega), toBytes_encodeChar _ (by omega),
      base64_decode_value _ _ _ _ _ _ e1.2.1, if_neg (by simp),
      base64_decode_value _ _ _ _ _ _ e2.2.1, if_neg (by simp),
      base64_decode_value _ _ _ _ _ _ e3.2.1, if_neg (by simp),
      base64_decode_value _ _ _ _ _ _ e4.2.1, if_pos (by simp)]
    have hq := base64_quantum_three a b1 c ha hb1 hc
    simp only [List.nil_append, List.cons_append] at hq ⊢
    rw [hq, ih hrest]
    simp

/-- `DecodeString` inverts `EncodeToString`: the standard encoding of a byte
sequence is accepted and decodes to that sequence. -/
theorem base64_DecodeString_EncodeToString (b : Bytes) (hb : ∀ x ∈ b, x < 256) :
    base64.DecodeString (base64.EncodeToString b) = Except.ok b := by
  unfold base64.DecodeString
  rw [base64_decode_encode b hb [] 0]
  rfl

/-! ## The two forms of one content -/

theorem dropWhile_of_all_false (p : Char → Bool) (s : GoString) (h : ∀ c ∈ s, p c = false) :
    s.dropWhile p = s := by
  cases s with
  | nil => rfl
  | cons x xs => simp [List.dropWhile, h x (by simp)]

theorem TrimSpace_of_no_space (s : GoString) (h : ∀ c ∈ s, IsSpace c = false) :
    TrimSpace s = s := by
  unfold TrimSpace
  rw [dropWhile_of_all_false IsSpace s h,
    dropWhile_of_all_false IsSpace s.reverse (fun c hc => h c (List.mem_reverse.mp hc)),
    List.reverse_reverse]

theorem EncodeToString_no_space (b : Bytes) :
    (∀ x ∈ b, x < 256) → ∀ c ∈ base64.EncodeToString b, IsSpace c = false := by
  have hpad : IsSpace '=' = false := by decide
  induction b using base64.EncodeToString.induct with
  | case1 => intro _ c hc; simp [base64.EncodeToString] at hc
  | case2 a =>
    intro hb c hc
    have ha : a < 256 := hb a (by simp)
    simp only [base64.EncodeToString, List.mem_cons, List.mem_nil_iff, or_false] at hc
    rcases hc with rfl | rfl | rfl | rfl
    · exact (base64_encodeChar_spec _ (by omega)).2.2
    · exact (base64_encodeChar_spec _ (by omega)).2.2
    · exact hpad
    · exact hpad
  | case3 a b1 =>
    intro hb c hc
    have ha : a < 256 := hb a (by simp)
    have hb1 : b1 < 256 := hb b1 (by simp)
    simp only [base64.EncodeToString, List.mem_cons, List.mem_nil_iff, or_false] at hc
    rcases hc with rfl | rfl | rfl | rfl
    · exact (base64_encodeChar_spec _ (by omega)).2.2
    · exact (base64_encodeChar_spec _ (by omega)).2.2
    · exact (base64_encodeChar_spec _ (by omega)).2.2
    · exact hpad
  | case4 a b1 c1 rest ih =>
    intro hb c hc
    have ha : a < 256 := hb a (by simp)
    have hb1 : b1 < 256 := hb b1 (by simp)
    have hc1 : c1 < 256 := hb c1 (by simp)
    have hrest : ∀ x ∈ rest, x < 256 := fun x hx => hb x (by simp [hx])
    simp only [base64.EncodeToString, List.mem_cons] at hc
    rcases hc with rfl | rfl | rfl | rfl | hc
    · exact (base64_encodeChar_spec _ (by omega)).2.2
    · exact (base64_encodeChar_spec _ (by omega)).2.2
    · exact (base64_encodeChar_spec _ (by omega)).2.2
    · exact (base64_encodeChar_spec _ (by omega)).2.2
    · exact ih hrest c hc

theorem utf8EncodeRune_lt (r : Char) : ∀ x ∈ utf8EncodeRune r, x < 256 := by
  have hv : r.toNat < 0x110000 := by
    have := r.valid
    simp only [UInt32.isValidChar, Nat.isValidChar] at this
    change r.val.toNat < 0x110000
    omega
  intro x hx
  unfold utf8EncodeRune at hx
  simp only at hx
  split at hx
  · simp only [List.mem_cons, List.mem_nil_iff, or_false] at hx; omega
  · split at hx
    · simp only [List.mem_cons, List.mem_nil_iff, or_false] at hx; omega
    · split at hx
      · simp only [List.mem_cons, List.mem_nil_iff, or_false] at hx; omega
      · simp only [List.mem_cons, List.mem_nil_iff, or_false] at hx; omega

theorem toBytes_lt (s : GoString) : ∀ x ∈ toBytes s, x < 256 := by
  intro x hx
  simp only [toBytes, List.mem_flatMap] at hx
  obtain ⟨r, _, hr⟩ := hx
  exact utf8EncodeRune_lt r x hr

/-- The base64 form of a byte sequence decodes to it. -/
theorem contents_base64_encoded (tbl : Char → Char) (K : GoString) (b : Bytes)
    (hK : K = "creds".toList ∨ K = "nkey".toList) (hb : ∀ x ∈ b, x < 256) :
    AuthTool.contents tbl ("base64".toList ++ ':' :: base64.EncodeToString b) K = Except.ok b := by
  rw [contents_base64 tbl K _ hK, TrimSpace_of_no_space _ (EncodeToString_no_space b hb),
    base64_DecodeString_EncodeToString b hb]

/-- The literal form `K:text` and the base64 form of its decoded content have
the same content. -/
theorem literal_and_base64_same_content (tbl : Char → Char) (K text : GoString)
    (hK : K = "creds".toList ∨ K = "nkey".toList) :
    AuthTool.contents tbl ("base64".toList ++ ':' :: base64.EncodeToString
        (toBytes (ReplaceAll (TrimSpace text) "\\n".toList [Char.ofNat 10]))) K =
      AuthTool.contents tbl (K ++ ':' :: text) K := by
  rw [contents_literal tbl K text hK, contents_base64_encoded tbl K _ hK (toBytes_lt _)]

/-! ## The prefix of a raw string -/

theorem mem_dropWhile_of_false (p : Char → Bool) (c : Char) (hc : p c = false) :
    ∀ s : GoString, c ∈ s → c ∈ s.dropWhile p := by
  intro s
  induction s with
  | nil => intro h; exact h
  | cons x xs ih =>
    intro h
    by_cases hx : p x = true
    · rw [List.dropWhile_cons_of_pos hx]
      rcases List.mem_cons.mp h with e | m
      · rw [e, hx] at hc; cases hc
      · exact ih m
    · rw [List.dropWhile_cons_of_neg hx]
      exact h

theorem mem_TrimSpace (c : Char) (hc : IsSpace c = false) (s : GoString) (h : c ∈ s) :
    c ∈ TrimSpace s := by
  unfold TrimSpace
  rw [List.mem_reverse]
  apply mem_dropWhile_of_false IsSpace c hc
  rw [List.mem_reverse]
  exact mem_dropWhile_of_false IsSpace c hc s h

/-- A prefix whose normal form has no colon has none itself. -/
theorem colon_not_mem_of_normalized (tbl : Char → Char) (p N : GoString)
    (h : ToLower tbl (TrimSpace p) = N) (hN : ':' ∉ N) : ':' ∉ p := by
  intro hp
  apply hN
  rw [← h]
  have h1 : ':' ∈ TrimSpace p := mem_TrimSpace ':' (by decide) p hp
  have h2 : unicodeToLower tbl ':' = ':' := rfl
  unfold ToLower
  exact List.mem_map.mpr ⟨':', h1, h2⟩

/-- Lines 95-106 of `AuthTool` on a raw string `p:payload` whose prefix `p` has
no colon. -/
theorem contents_of_split (tbl : Char → Char) (p payload K : GoString) (hp : ':' ∉ p) :
    AuthTool.contents tbl (p ++ ':' :: payload) K =
      if ToLower tbl (TrimSpace p) = K then
        Except.ok (toBytes (ReplaceAll (TrimSpace payload) "\\n".toList [Char.ofNat 10]))
      else if ToLower tbl (TrimSpace p) = "base64".toList then
        base64.DecodeString (TrimSpace payload)
      else Except.ok [] := by
  unfold AuthTool.contents
  rw [SplitN_two_append p payload ':' hp]

/-- Two raw strings with the same result of lines 91-106, neither naming a
file, have the same outcome. -/
theorem AuthTool_congr (tbl : Char → Char) (io : Faults) (fs : FS) (a1 a2 K : GoString)
    (h1 : checkFileIsExist fs a1 = false) (h2 : checkFileIsExist fs a2 = false)
    (hc : AuthTool.contents tbl a1 K = AuthTool.contents tbl a2 K) :
    AuthTool tbl io fs a1 K = AuthTool tbl io fs a2 K := by
  unfold AuthTool
  rw [h1, h2, hc]
  simp only [Bool.false_eq_true, if_false]

/-- An error of lines 91-106 is returned as it is, with no effect. -/
theorem AuthTool_of_contents_error (tbl : Char → Char) (io : Faults) (fs : FS)
    (auth K : GoString) (e : GoError) (hK : K = "creds".toList ∨ K = "nkey".toList)
    (hne : checkFileIsExist fs auth = false)
    (hX : AuthTool.contents tbl auth K = Except.error e) :
    AuthTool tbl io fs auth K = { path := [], err := some e, fs := fs, out := [] } := by
  obtain ⟨ft, bp, hk⟩ := kind_of_known K hK
  unfold AuthTool
  rw [hne, hk, hX]
  rfl

theorem md5_empty : hexString (md5.Sum []) = "d41d8cd98f00b204e9800998ecf8427e".toList := by
  decide!

/-! ## `AddAuthToOptions` -/

/-- For a kind `creds` or `nkey`, `AuthTool` never returns an error whose
message starts with `unknown type: `. -/
theorem AuthTool_err_ne_unknown_type (tbl : Char → Char) (io : Faults) (fs : FS)
    (auth K v : GoString) (hK : K = "creds".toList ∨ K = "nkey".toList) :
    (AuthTool tbl io fs auth K).err ≠ some (GoError.errorf ("unknown type: ".toList ++ v)) := by
  cases hex : checkFileIsExist fs auth with
  | true =>
    have : AuthTool tbl io fs auth K = { path := auth, err := none, fs := fs, out := [] } := by
      unfold AuthTool; rw [hex]; rfl
    rw [this]
    simp
  | false =>
    by_cases hc : ':' ∈ auth
    · exact AuthTool_error_of_colon tbl io fs auth K hK hex hc _
    · rw [AuthTool_of_contents_error tbl io fs auth K _ hK hex (contents_of_no_colon tbl auth K hc)]
      simp

theorem resolve_of_creds (tbl : Char → Char) (seed : FS → GoString → Except GoError NatsOption)
    (io : Faults) (fs : FS) (c k : GoString) (opts : List NatsOption) (hc : c ≠ []) :
    AddAuthToOptions.resolve tbl seed io fs c k opts =
      match (AuthTool tbl io fs c "creds".toList).err with
      | some e =>
        { opts := opts, err := some e, fs := (AuthTool tbl io fs c "creds".toList).fs,
          out := (AuthTool tbl io fs c "creds".toList).out, calls := [(c, "creds".toList)] }
      | none =>
        { opts := opts ++ [NatsOption.userCredentials (AuthTool tbl io fs c "creds".toList).path],
          err := none, fs := (AuthTool tbl io fs c "creds".toList).fs,
          out := (AuthTool tbl io fs c "creds".toList).out, calls := [(c, "creds".toList)] } := by
  unfold AddAuthToOptions.resolve
  rw [if_pos hc]

theorem resolve_of_nkey (tbl : Char → Char) (seed : FS → GoString → Except GoError NatsOption)
    (io : Faults) (fs : FS) (k : GoString) (opts : List NatsOption) (hk : k ≠ []) :
    AddAuthToOptions.resolve tbl seed io fs [] k opts =
      match (AuthTool tbl io fs k "nkey".toList).err with
      | some e =>
        { opts := opts, err := some e, fs := (AuthTool tbl io fs k "nkey".toList).fs,
          out := (AuthTool tbl io fs k "nkey".toList).out, calls := [(k, "nkey".toList)] }
      | none =>
        match seed (AuthTool tbl io fs k "nkey".toList).fs
            (AuthTool tbl io fs k "nkey".toList).path with
        | Except.error _ =>
          { opts := opts, err := none, fs := (AuthTool tbl io fs k "nkey".toList).fs,
            out := (AuthTool tbl io fs k "nkey".toList).out, calls := [(k, "nkey".toList)] }
        | Except.ok opt =>
          { opts := opts ++ [opt], err := none, fs := (AuthTool tbl io fs k "nkey".toList).fs,
            out := (AuthTool tbl io fs k "nkey".toList).out, calls := [(k, "nkey".toList)] } := by
  unfold AddAuthToOptions.resolve
  rw [if_neg (by simp), if_pos hk]

theorem resolve_of_empty (tbl : Char → Char) (seed : FS → GoString → Except GoError NatsOption)
    (io : Faults) (fs : FS) (opts : List NatsOption) :
    AddAuthToOptions.resolve tbl seed io fs [] [] opts =
      { opts := opts, err := none, fs := fs, out := [], calls := [] } := by
  unfold AddAuthToOptions.resolve
  rw [if_neg (by simp), if_neg (by simp)]

/-- What lines 44-61 return is never the error `unknown type: ...`. -/
theorem resolve_err_ne_unknown_type (tbl : Char → Char)
    (seed : FS → GoString → Except GoError NatsOption) (io : Faults) (fs : FS)
    (c k v : GoString) (opts : List NatsOption) :
    (AddAuthToOptions.resolve tbl seed io fs c k opts).err ≠
      some (GoError.errorf ("unknown type: ".toList ++ v)) := by
  by_cases hc : c = []
  · subst hc
    by_cases hk : k = []
    · subst hk
      rw [resolve_of_empty]
      simp
    · rw [resolve_of_nkey tbl seed io fs k opts hk]
      have h := AuthTool_err_ne_unknown_type tbl io fs k "nkey".toList v (Or.inr rfl)
      cases he : (AuthTool tbl io fs k "nkey".toList).err with
      | some e =>
        rw [he] at h
        simpa using h
      | none =>
        simp only
        cases seed (AuthTool tbl io fs k "nkey".toList).fs
          (AuthTool tbl io fs k "nkey".toList).path <;> simp
  · rw [resolve_of_creds tbl seed io fs c k opts hc]
    have h := AuthTool_err_ne_unknown_type tbl io fs c "creds".toList v (Or.inl rfl)
    cases he : (AuthTool tbl io fs c "creds".toList).err with
    | some e =>
      rw [he] at h
      simpa using h
    | none => simp

/-! ## The entry of a target path -/

theorem Stat_filepath_none (fs : FS) (K ft bp : GoString) (X : Bytes)
    (hk : AuthTool.kind K = some (ft, bp))
    (h : checkFileIsExist fs (AuthTool.filepath bp X ft) = false) :
    Stat fs (AuthTool.filepath bp X ft) = none := by
  rw [checkFileIsExist_filepath fs K ft bp X hk] at h
  cases hs : Stat fs (AuthTool.filepath bp X ft) with
  | none => rfl
  | some n => rw [hs] at h; cases h

theorem Stat_filepath_some (fs : FS) (K ft bp : GoString) (X : Bytes)
    (hk : AuthTool.kind K = some (ft, bp))
    (h : checkFileIsExist fs (AuthTool.filepath bp X ft) = true) :
    ∃ n, Stat fs (AuthTool.filepath bp X ft) = some n := by
  rw [checkFileIsExist_filepath fs K ft bp X hk] at h
  cases hs : Stat fs (AuthTool.filepath bp X ft) with
  | none => rw [hs] at h; cases h
  | some n => exact ⟨n, rfl⟩

theorem checkFileIsExist_filepath_of_Stat (fs : FS) (K ft bp : GoString) (X : Bytes) (n : Node)
    (hk : AuthTool.kind K = some (ft, bp))
    (h : Stat fs (AuthTool.filepath bp X ft) = some n) :
    checkFileIsExist fs (AuthTool.filepath bp X ft) = true := by
  rw [checkFileIsExist_filepath fs K ft bp X hk, h]
  rfl

/-! ## The file system after a call -/

/-- `MkdirAll` keeps what every name stood for. -/
theorem MkdirAll_go_mono (io : Faults) (ps : List GoString) :
    ∀ (fs fs1 : FS) (oe : Option GoError), MkdirAll.go io ps fs = (fs1, oe) →
      ∀ name n, Stat fs name = some n → Stat fs1 name = some n := by
  induction ps with
  | nil =>
    intro fs fs1 oe h name n hn
    simp only [MkdirAll.go, Prod.mk.injEq] at h
    rw [← h.1]; exact hn
  | cons p parents ih =>
    intro fs fs1 oe h name n hn
    unfold MkdirAll.go at h
    split at h
    · simp only [Prod.mk.injEq] at h; rw [← h.1]; exact hn
    · simp only [Prod.mk.injEq] at h; rw [← h.1]; exact hn
    · rename_i hnone
      have hnp : name ≠ p := by
        intro e
        rw [e, hnone] at hn
        cases hn
      split at h
      · rename_i heq
        simp only [Prod.mk.injEq] at h
        rw [← h.1]
        exact ih _ _ _ heq name n hn
      · rename_i heq
        split at h
        · simp only [Prod.mk.injEq] at h
          rw [← h.1]
          exact ih _ _ _ heq name n hn
        · simp only [Prod.mk.injEq] at h
          rw [← h.1, Stat_cons_ne _ _ _ _ hnp]
          exact ih _ _ _ heq name n hn

/-- What `MkdirAll` adds is directories. -/
theorem MkdirAll_go_new (io : Faults) (ps : List GoString) :
    ∀ (fs fs1 : FS) (oe : Option GoError), MkdirAll.go io ps fs = (fs1, oe) →
      ∀ name, Stat fs1 name = Stat fs name ∨ Stat fs1 name = some Node.dir := by
  induction ps with
  | nil =>
    intro fs fs1 oe h name
    simp only [MkdirAll.go, Prod.mk.injEq] at h
    rw [← h.1]; exact Or.inl rfl
  | cons p parents ih =>
    intro fs fs1 oe h name
    unfold MkdirAll.go at h
    split at h
    · simp only [Prod.mk.injEq] at h; rw [← h.1]; exact Or.inl rfl
    · simp only [Prod.mk.injEq] at h; rw [← h.1]; exact Or.inl rfl
    · split at h
      · rename_i heq
        simp only [Prod.mk.injEq] at h
        rw [← h.1]
        exact ih _ _ _ heq name
      · rename_i heq
        split at h
        · simp only [Prod.mk.injEq] at h
          rw [← h.1]
          exact ih _ _ _ heq name
        · simp only [Prod.mk.injEq] at h
          rw [← h.1]
          by_cases hnp : name = p
          · rw [hnp, Stat_cons_self]; exact Or.inr rfl
          · rw [Stat_cons_ne _ _ _ _ hnp]
            exact ih _ _ _ heq name

/-- `MkdirAll` keeps what every name stood for. -/
theorem MkdirAll_mono (io : Faults) (fs fs1 : FS) (path : GoString) (oe : Option GoError)
    (h : MkdirAll io fs path = (fs1, oe)) (name : GoString) (n : Node)
    (hn : Stat fs name = some n) : Stat fs1 name = some n := by
  rcases MkdirAll_shape io fs fs1 path _ h with ⟨h1, _⟩ | h1 |
    ⟨p, parents, oe2, _, h1, _⟩ | ⟨p, parents, fs0, _, hp, h1, h2, _⟩
  · rw [h1]; exact hn
  · exact MkdirAll_go_mono io _ _ _ _ h1 name n hn
  · exact MkdirAll_go_mono io _ _ _ _ h1 name n hn
  · have hnp : name ≠ p := by
      intro e
      rw [e, hp] at hn
      cases hn
    rw [h2, Stat_cons_ne _ _ _ _ hnp]
    exact MkdirAll_go_mono io _ _ _ _ h1 name n hn

/-- What `MkdirAll` adds is directories. -/
theorem MkdirAll_new (io : Faults) (fs fs1 : FS) (path : GoString) (oe : Option GoError)
    (h : MkdirAll io fs path = (fs1, oe)) (name : GoString) :
    Stat fs1 name = Stat fs name ∨ Stat fs1 name = some Node.dir := by
  rcases MkdirAll_shape io fs fs1 path _ h with ⟨h1, _⟩ | h1 |
    ⟨p, parents, oe2, _, h1, _⟩ | ⟨p, parents, fs0, _, _, h1, h2, _⟩
  · rw [h1]; exact Or.inl rfl
  · exact MkdirAll_go_new io _ _ _ _ h1 name
  · exact MkdirAll_go_new io _ _ _ _ h1 name
  · rw [h2]
    by_cases hnp : name = p
    · rw [hnp, Stat_cons_self]; exact Or.inr rfl
    · rw [Stat_cons_ne _ _ _ _ hnp]
      exact MkdirAll_go_new io _ _ _ _ h1 name

/-- The file system a call leaves: the one it found; or, after a miss on the
target path, the one `MkdirAll` left, with the new file when the call succeeds
and with the bytes that reached the file when the write failed half way. -/
theorem AuthTool_fs_shape (tbl : Char → Char) (io : Faults) (fs : FS) (auth K : GoString) :
    (AuthTool tbl io fs auth K).fs = fs ∨
    ∃ ft bp X, AuthTool.kind K = some (ft, bp) ∧ AuthTool.contents tbl auth K = Except.ok X ∧
      checkFileIsExist fs auth = false ∧
      checkFileIsExist fs (AuthTool.filepath bp X ft) = false ∧
      (((AuthTool tbl io fs auth K).fs = (MkdirAll io fs bp).1 ∧
          (AuthTool tbl io fs auth K).err ≠ none ∧ (AuthTool tbl io fs auth K).path = []) ∨
        ((AuthTool tbl io fs auth K).fs =
            (AuthTool.filepath bp X ft, Node.file X) :: (MkdirAll io fs bp).1 ∧
          (AuthTool tbl io fs auth K).err = none ∧
          (AuthTool tbl io fs auth K).path = AuthTool.filepath bp X ft) ∨
        (∃ n errno, io.write = WriteFault.shortWrite n errno ∧
          (AuthTool tbl io fs auth K).fs =
            (AuthTool.filepath bp X ft, Node.file (X.take n)) :: (MkdirAll io fs bp).1 ∧
          (AuthTool tbl io fs auth K).err ≠ none ∧ (AuthTool tbl io fs auth K).path = [])) := by
  cases hne : checkFileIsExist fs auth with
  | true => left; unfold AuthTool; rw [hne]; rfl
  | false =>
    cases hk : AuthTool.kind K with
    | none => left; unfold AuthTool; rw [hne, hk]; rfl
    | some p =>
      obtain ⟨ft, bp⟩ := p
      cases hX : AuthTool.contents tbl auth K with
      | error e => left; unfold AuthTool; rw [hne, hk, hX]; rfl
      | ok X =>
        rw [AuthTool_of_contents tbl io fs auth K ft bp X hne hk hX]
        cases hex : checkFileIsExist fs (AuthTool.filepath bp X ft) with
        | true => left; simp
        | false =>
          right
          refine ⟨ft, bp, X, rfl, rfl, rfl, hex, ?_⟩
          have h0 : Stat fs (AuthTool.filepath bp X ft) = none :=
            Stat_filepath_none fs K ft bp X hk hex
          generalize AuthTool.filepath bp X ft = P at hex h0 ⊢
          simp only [Bool.not_false, if_true]
          cases hmk : MkdirAll io fs bp with
          | mk fs1 oe =>
            cases oe with
            | some e => left; simp
            | none =>
              simp only
              have hP : Stat fs1 P = none ∨ Stat fs1 P = some Node.dir := by
                rcases MkdirAll_new io _ _ _ _ hmk P with h | h
                · left; rw [h, h0]
                · right; exact h
              unfold WriteFile
              rcases hP with hP | hP
              · rw [hP]
                simp only
                cases hw : io.write with
                | ok => right; left; simp
                | openFails errno => left; simp
                | shortWrite n errno => right; right; exact ⟨n, errno, rfl, by simp⟩
              · rw [hP]
                left; simp

/-! ## The cache invariant -/

/-- A cache name that is the target path of a content carries the digest of
that content. -/
theorem cache_name_digest (K ft bp : GoString) (X : Bytes)
    (hk : AuthTool.kind K = some (ft, bp)) (h : GoString) :
    ("/nack-accounts/creds/".toList ++ h ++ ".creds".toList = AuthTool.filepath bp X ft →
      hexString (md5.Sum X) = h) ∧
    ("/nack-accounts/keys/".toList ++ h ++ ".nk".toList = AuthTool.filepath bp X ft →
      hexString (md5.Sum X) = h) := by
  unfold AuthTool.filepath
  rcases kind_cases K ft bp hk with ⟨_, rfl, rfl⟩ | ⟨_, rfl, rfl⟩
  · constructor
    · intro e
      exact (List.append_cancel_left (List.append_cancel_right e)).symm
    · intro e
      simp at e
  · constructor
    · intro e
      simp at e
    · intro e
      exact (List.append_cancel_left (List.append_cancel_right e)).symm

theorem Stat_nil (name : GoString) : Stat [] name = none := rfl

theorem CacheConsistent_nil : CacheConsistent [] := by
  intro h c
  constructor <;> intro hs <;> rw [Stat_nil] at hs <;> cases hs

/-- A file system whose only entry is a directory is consistent. -/
theorem CacheConsistent_dir (p : GoString) : CacheConsistent [(p, Node.dir)] := by
  intro h c
  constructor <;> intro hs
  · by_cases e : "/nack-accounts/creds/".toList ++ h ++ ".creds".toList = p
    · rw [e, Stat_cons_self] at hs; cases hs
    · rw [Stat_cons_ne _ _ _ _ e, Stat_nil] at hs; cases hs
  · by_cases e : "/nack-accounts/keys/".toList ++ h ++ ".nk".toList = p
    · rw [e, Stat_cons_self] at hs; cases hs
    · rw [Stat_cons_ne _ _ _ _ e, Stat_nil] at hs; cases hs

/-- The directories `MkdirAll` makes keep the cache consistent. -/
theorem CacheConsistent_MkdirAll (io : Faults) (fs : FS) (bp : GoString)
    (hcons : CacheConsistent fs) : CacheConsistent (MkdirAll io fs bp).1 := by
  have hnew := MkdirAll_new io fs _ bp _ rfl
  have hfile : ∀ name c, Stat (MkdirAll io fs bp).1 name = some (Node.file c) →
      Stat fs name = some (Node.file c) := by
    intro name c h1
    rcases hnew name with h | h
    · rw [← h]; exact h1
    · have h2 : Stat (MkdirAll io fs bp).1 name = some Node.dir := h
      rw [h2] at h1; cases h1
  intro h c
  exact ⟨fun hs => (hcons h c).1 (hfile _ c hs), fun hs => (hcons h c).2 (hfile _ c hs)⟩

/-- Writing a content under its digest keeps the cache consistent. -/
theorem CacheConsistent_cons (fs : FS) (K ft bp : GoString) (X : Bytes)
    (hk : AuthTool.kind K = some (ft, bp)) (hcons : CacheConsistent fs) :
    CacheConsistent ((AuthTool.filepath bp X ft, Node.file X) :: fs) := by
  intro h c
  have hd := cache_name_digest K ft bp X hk h
  constructor <;> intro hs
  · by_cases e : "/nack-accounts/creds/".toList ++ h ++ ".creds".toList = AuthTool.filepath bp X ft
    · rw [e, Stat_cons_self] at hs
      injection hs with hs
      injection hs with hs
      rw [← hs]
      exact hd.1 e
    · rw [Stat_cons_ne _ _ _ _ e] at hs
      exact (hcons h c).1 hs
  · by_cases e : "/nack-accounts/keys/".toList ++ h ++ ".nk".toList = AuthTool.filepath bp X ft
    · rw [e, Stat_cons_self] at hs
      injection hs with hs
      injection hs with hs
      rw [← hs]
      exact hd.2 e
    · rw [Stat_cons_ne _ _ _ _ e] at hs
      exact (hcons h c).2 hs

/-- A call that succeeds, or during which no write stops half way, keeps the
cache consistent. -/
theorem CacheConsistent_AuthTool (tbl : Char → Char) (io : Faults) (fs : FS)
    (auth K : GoString) (hcons : CacheConsistent fs)
    (hok : (AuthTool tbl io fs auth K).err = none ∨
      ∀ n errno, io.write ≠ WriteFault.shortWrite n errno) :
    CacheConsistent (AuthTool tbl io fs auth K).fs := by
  rcases AuthTool_fs_shape tbl io fs auth K with h | ⟨ft, bp, X, hk, _, _, _, hcase⟩
  · rw [h]; exact hcons
  · rcases hcase with ⟨hfs, _, _⟩ | ⟨hfs, _, _⟩ | ⟨n, errno, hw, _, herr, _⟩
    · rw [hfs]; exact CacheConsistent_MkdirAll io fs bp hcons
    · rw [hfs]
      exact CacheConsistent_cons _ K ft bp X hk (CacheConsistent_MkdirAll io fs bp hcons)
    · rcases hok with h | h
      · exact absurd h herr
      · exact absurd hw (h n errno)

/-! ## Properties of `AuthTool` -/

/-- C1: when `auth` names an existing file, `AuthTool` returns `auth` and no
error whatever the auth type and the shape of `auth` are; the file system is
the one it started from and nothing is printed. -/
theorem AuthTool_existing_file_passthrough (tbl : Char → Char) (io : Faults) (fs : FS)
    (auth authType : GoString) (h : checkFileIsExist fs auth = true) :
    AuthTool tbl io fs auth authType = { path := auth, err := none, fs := fs, out := [] } := by
  unfold AuthTool
  rw [h]
  rfl

theorem AuthTool_existing_file_passthrough_witness :
    checkFileIsExist [("no colon".toList, Node.file [1, 2])] "no colon".toList = true ∧
    AuthTool id Faults.none [("no colon".toList, Node.file [1, 2])] "no colon".toList
        "token".toList =
      { path := "no colon".toList, err := none,
        fs := [("no colon".toList, Node.file [1, 2])], out := [] } :=
  ⟨by decide, AuthTool_existing_file_passthrough id Faults.none _ _ _ (by decide)⟩

/-- C2 fails as stated: with a regular file in the place of the directory
`/nack-accounts`, the literal form `creds:x` names no existing file and is
decoded, but `MkdirAll` fails and `AuthTool` returns its error. -/
theorem literal_form_fails_on_mkdir_error :
    checkFileIsExist [("/nack-accounts".toList, Node.file [])]
        ("creds".toList ++ ":".toList ++ "x".toList) = false ∧
    AuthTool id Faults.none [("/nack-accounts".toList, Node.file [])]
        ("creds".toList ++ ":".toList ++ "x".toList) "creds".toList =
      { path := [], err := some (GoError.pathError "mkdir".toList "/nack-accounts".toList 20),
        fs := [("/nack-accounts".toList, Node.file [])], out := [] } := by
  decide!

/-- C2, amended: for a kind `K` (`creds` or `nkey`, with suffix `ft` and base
directory `bp`) and a raw string `K:text` that names no existing file, the
content is `text` with the white space trimmed and then every backslash-n
replaced by a newline, colons of `text` included.  The target path is made from
that content; if it exists it is returned and nothing is written; if it is
absent and `MkdirAll` and `WriteFile` succeed, it is returned and the new file
holds that content; the call fails only when `MkdirAll` or `WriteFile` does. -/
theorem AuthTool_literal_form (tbl : Char → Char) (io : Faults) (fs : FS)
    (K ft bp text : GoString) (hk : AuthTool.kind K = some (ft, bp))
    (hne : checkFileIsExist fs (K ++ ":".toList ++ text) = false) :
    AuthTool.contents tbl (K ++ ":".toList ++ text) K =
      Except.ok (toBytes (unescapeNewlines (TrimSpace text))) ∧
    (checkFileIsExist fs
        (AuthTool.filepath bp (toBytes (unescapeNewlines (TrimSpace text))) ft) = true →
      AuthTool tbl io fs (K ++ ":".toList ++ text) K =
        { path := AuthTool.filepath bp (toBytes (unescapeNewlines (TrimSpace text))) ft,
          err := none, fs := fs, out := [] }) ∧
    (checkFileIsExist fs
        (AuthTool.filepath bp (toBytes (unescapeNewlines (TrimSpace text))) ft) = false →
      (MkdirAll io fs bp).2 = none →
      (WriteFile io (MkdirAll io fs bp).1
        (AuthTool.filepath bp (toBytes (unescapeNewlines (TrimSpace text))) ft)
        (toBytes (unescapeNewlines (TrimSpace text)))).2 = none →
      AuthTool tbl io fs (K ++ ":".toList ++ text) K =
        { path := AuthTool.filepath bp (toBytes (unescapeNewlines (TrimSpace text))) ft,
          err := none,
          fs := (AuthTool.filepath bp (toBytes (unescapeNewlines (TrimSpace text))) ft,
            Node.file (toBytes (unescapeNewlines (TrimSpace text)))) :: (MkdirAll io fs bp).1,
          out := [AuthTool.cacheLine
            (AuthTool.filepath bp (toBytes (unescapeNewlines (TrimSpace text))) ft)] }) ∧
    ((AuthTool tbl io fs (K ++ ":".toList ++ text) K).err ≠ none →
      (AuthTool tbl io fs (K ++ ":".toList ++ text) K).err = (MkdirAll io fs bp).2 ∨
      (AuthTool tbl io fs (K ++ ":".toList ++ text) K).err =
        (WriteFile io (MkdirAll io fs bp).1
          (AuthTool.filepath bp (toBytes (unescapeNewlines (TrimSpace text))) ft)
          (toBytes (unescapeNewlines (TrimSpace text)))).2) := by
  have hK : K = "creds".toList ∨ K = "nkey".toList := by
    rcases kind_cases K ft bp hk with h | h
    · exact Or.inl h.1
    · exact Or.inr h.1
  have he : K ++ ":".toList ++ text = K ++ ':' :: text := by simp
  rw [he] at hne ⊢
  have hX := contents_literal tbl K text hK
  rw [ReplaceAll_backslash_n] at hX
  obtain ⟨h1, h2, h3⟩ := AuthTool_materialize tbl io fs _ K ft bp _ hne hk hX
  refine ⟨hX, h1, h2, fun h => ?_⟩
  rcases (h3 h).2.2 with h | h
  · exact Or.inl h
  · exact Or.inr h.2

theorem AuthTool_literal_form_witness :
    AuthTool.kind "creds".toList = some (".creds".toList, "/nack-accounts/creds/".toList) ∧
    checkFileIsExist [] ("creds".toList ++ ":".toList ++ " a:b\\nc ".toList) = false ∧
    AuthTool.contents id ("creds".toList ++ ":".toList ++ " a:b\\nc ".toList) "creds".toList =
      Except.ok (toBytes (unescapeNewlines (TrimSpace " a:b\\nc ".toList))) ∧
    toBytes (unescapeNewlines (TrimSpace " a:b\\nc ".toList)) = [97, 58, 98, 10, 99] :=
  ⟨rfl, by decide,
    (AuthTool_literal_form id Faults.none [] _ _ _ " a:b\\nc ".toList
      (rfl : AuthTool.kind "creds".toList = some (".creds".toList, "/nack-accounts/creds/".toList))
      (by decide)).1,
    by decide⟩

/-- C3 fails as stated: `eA==` is valid base64 and `base64:eA==` names no
existing file, but when the cache file cannot be opened for writing (error 13,
`EACCES`) `AuthTool` returns that error and no path. -/
theorem base64_form_fails_on_write_error :
    checkFileIsExist [] ("base64:".toList ++ "eA==".toList) = false ∧
    base64.DecodeString (TrimSpace "eA==".toList) = Except.ok [120] ∧
    AuthTool id { mkdir := fun _ => none, write := WriteFault.openFails 13 } []
        ("base64:".toList ++ "eA==".toList) "nkey".toList =
      { path := [],
        err := some (GoError.pathError "open".toList
          "/nack-accounts/keys/9dd4e461268c8034f5c8564e155c67a6.nk".toList 13),
        fs := [("/nack-accounts/keys".toList, Node.dir), ("/nack-accounts".toList, Node.dir)],
        out := [] } := by
  decide!

/-- C3, amended: for a kind `K` (`creds` or `nkey`, with suffix `ft` and base
directory `bp`) and a payload whose trimmed form the standard decoder accepts
with result `b`, if `base64:payload` names no existing file then the content is
`b`.  The target path is made from `b`; if it exists it is returned and nothing
is written; if it is absent and `MkdirAll` and `WriteFile` succeed, it is
returned and the new file holds `b`; the call fails only when `MkdirAll` or
`WriteFile` does. -/
theorem AuthTool_base64_form (tbl : Char → Char) (io : Faults) (fs : FS)
    (K ft bp payload : GoString) (b : Bytes) (hk : AuthTool.kind K = some (ft, bp))
    (hdec : base64.DecodeString (TrimSpace payload) = Except.ok b)
    (hne : checkFileIsExist fs ("base64:".toList ++ payload) = false) :
    AuthTool.contents tbl ("base64:".toList ++ payload) K = Except.ok b ∧
    (checkFileIsExist fs (AuthTool.filepath bp b ft) = true →
      AuthTool tbl io fs ("base64:".toList ++ payload) K =
        { path := AuthTool.filepath bp b ft, err := none, fs := fs, out := [] }) ∧
    (checkFileIsExist fs (AuthTool.filepath bp b ft) = false →
      (MkdirAll io fs bp).2 = none →
      (WriteFile io (MkdirAll io fs bp).1 (AuthTool.filepath bp b ft) b).2 = none →
      AuthTool tbl io fs ("base64:".toList ++ payload) K =
        { path := AuthTool.filepath bp b ft, err := none,
          fs := (AuthTool.filepath bp b ft, Node.file b) :: (MkdirAll io fs bp).1,
          out := [AuthTool.cacheLine (AuthTool.filepath bp b ft)] }) ∧
    ((AuthTool tbl io fs ("base64:".toList ++ payload) K).err ≠ none →
      (AuthTool tbl io fs ("base64:".toList ++ payload) K).err = (MkdirAll io fs bp).2 ∨
      (AuthTool tbl io fs ("base64:".toList ++ payload) K).err =
        (WriteFile io (MkdirAll io fs bp).1 (AuthTool.filepath bp b ft) b).2) := by
  have hK : K = "creds".toList ∨ K = "nkey".toList := by
    rcases kind_cases K ft bp hk with h | h
    · exact Or.inl h.1
    · exact Or.inr h.1
  have he : "base64:".toList ++ payload = "base64".toList ++ ':' :: payload := by simp
  rw [he] at hne ⊢
  have hX : AuthTool.contents tbl ("base64".toList ++ ':' :: payload) K = Except.ok b := by
    rw [contents_base64 tbl K payload hK, hdec]
  obtain ⟨h1, h2, h3⟩ := AuthTool_materialize tbl io fs _ K ft bp _ hne hk hX
  refine ⟨hX, h1, h2, fun h => ?_⟩
  rcases (h3 h).2.2 with h | h
  · exact Or.inl h
  · exact Or.inr h.2

theorem AuthTool_base64_form_witness :
    AuthTool.kind "nkey".toList = some (".nk".toList, "/nack-accounts/keys/".toList) ∧
    base64.DecodeString (TrimSpace " aGk=\n".toList) = Except.ok [104, 105] ∧
    checkFileIsExist [] ("base64:".toList ++ " aGk=\n".toList) = false ∧
    AuthTool.contents id ("base64:".toList ++ " aGk=\n".toList) "nkey".toList =
      Except.ok [104, 105] :=
  ⟨rfl, by decide, by decide,
    (AuthTool_base64_form id Faults.none [] _ _ _ " aGk=\n".toList [104, 105]
      (rfl : AuthTool.kind "nkey".toList = some (".nk".toList, "/nack-accounts/keys/".toList))
      (by decide) (by decide)).1⟩

/-- C4: a call of `AuthTool` that succeeds on an `auth` that names no existing
file returns `/nack-accounts/creds/<hex>.creds` for the kind `creds` and
`/nack-accounts/keys/<hex>.nk` for the kind `nkey`, where `<hex>` is the MD5
digest of the decoded content written as 32 lowercase hexadecimal digits. -/
theorem AuthTool_path_shape (tbl : Char → Char) (io : Faults) (fs : FS)
    (auth K : GoString) (hne : checkFileIsExist fs auth = false)
    (hok : (AuthTool tbl io fs auth K).err = none) :
    ∃ contents, AuthTool.contents tbl auth K = Except.ok contents ∧
      (hexString (md5.Sum contents)).length = 32 ∧
      (∀ c ∈ hexString (md5.Sum contents), c ∈ "0123456789abcdef".toList) ∧
      ((K = "creds".toList ∧
          (AuthTool tbl io fs auth K).path =
            "/nack-accounts/creds/".toList ++ hexString (md5.Sum contents) ++ ".creds".toList) ∨
        (K = "nkey".toList ∧
          (AuthTool tbl io fs auth K).path =
            "/nack-accounts/keys/".toList ++ hexString (md5.Sum contents) ++ ".nk".toList)) := by
  obtain ⟨ft, bp, X, hk, hX, hp, _⟩ := AuthTool_ok_path tbl io fs auth K hne hok
  refine ⟨X, hX, ?_, hexString_mem _, ?_⟩
  · rw [hexString_length, md5_Sum_length]
  · rw [hp]
    rcases kind_cases K ft bp hk with ⟨h1, h2, h3⟩ | ⟨h1, h2, h3⟩
    · exact Or.inl ⟨h1, by rw [h2, h3]; rfl⟩
    · exact Or.inr ⟨h1, by rw [h2, h3]; rfl⟩

theorem AuthTool_path_shape_witness :
    checkFileIsExist [] "creds:abc".toList = false ∧
    (AuthTool id Faults.none [] "creds:abc".toList "creds".toList).err = none ∧
    (AuthTool id Faults.none [] "creds:abc".toList "creds".toList).path =
      "/nack-accounts/creds/900150983cd24fb0d6963f7d28e17f72.creds".toList ∧
    ∃ contents, AuthTool.contents id "creds:abc".toList "creds".toList = Except.ok contents ∧
      (hexString (md5.Sum contents)).length = 32 ∧
      (∀ c ∈ hexString (md5.Sum contents), c ∈ "0123456789abcdef".toList) ∧
      (("creds".toList = "creds".toList ∧
          (AuthTool id Faults.none [] "creds:abc".toList "creds".toList).path =
            "/nack-accounts/creds/".toList ++ hexString (md5.Sum contents) ++ ".creds".toList) ∨
        ("creds".toList = "nkey".toList ∧
          (AuthTool id Faults.none [] "creds:abc".toList "creds".toList).path =
            "/nack-accounts/keys/".toList ++ hexString (md5.Sum contents) ++ ".nk".toList)) :=
  ⟨by decide, by decide!, by decide!,
    AuthTool_path_shape id Faults.none [] "creds:abc".toList "creds".toList (by decide)
      (by decide!)⟩

/-- C5 fails as stated: the raw string `/nack-accounts/creds/../../tmp/a:b`
names no file while `/nack-accounts/creds` is missing, so the first call
succeeds with the cache path of the empty content and makes the directories;
through them the same string then leads to the file `/tmp/a:b`, and the second
call returns the string itself. -/
theorem second_call_resolves_through_new_directories :
    checkFileIsExist [("/tmp/a:b".toList, Node.file [1]), ("/tmp".toList, Node.dir)]
      "/nack-accounts/creds/../../tmp/a:b".toList = false ∧
    (AuthTool id Faults.none [("/tmp/a:b".toList, Node.file [1]), ("/tmp".toList, Node.dir)]
      "/nack-accounts/creds/../../tmp/a:b".toList "creds".toList).err = none ∧
    (AuthTool id Faults.none [("/tmp/a:b".toList, Node.file [1]), ("/tmp".toList, Node.dir)]
      "/nack-accounts/creds/../../tmp/a:b".toList "creds".toList).path =
      "/nack-accounts/creds/d41d8cd98f00b204e9800998ecf8427e.creds".toList ∧
    AuthTool id Faults.none
        (AuthTool id Faults.none
          [("/tmp/a:b".toList, Node.file [1]), ("/tmp".toList, Node.dir)]
          "/nack-accounts/creds/../../tmp/a:b".toList "creds".toList).fs
        "/nack-accounts/creds/../../tmp/a:b".toList "creds".toList =
      { path := "/nack-accounts/creds/../../tmp/a:b".toList, err := none,
        fs := (AuthTool id Faults.none
          [("/tmp/a:b".toList, Node.file [1]), ("/tmp".toList, Node.dir)]
          "/nack-accounts/creds/../../tmp/a:b".toList "creds".toList).fs,
        out := [] } := by
  decide!

/-- C5, amended: after a call `AuthTool(auth, K)` that succeeds, and after which
`auth` names an existing file exactly if it did before, a second call on the
file system the first one left returns the same path and no error, leaves the
file system as the first call left it and prints nothing.  Any call that prints
the cache line found no file at the path it returns and has written the decoded
content there. -/
theorem AuthTool_idempotent (tbl : Char → Char) (io1 io2 : Faults) (fs0 : FS)
    (auth K : GoString) (hok : (AuthTool tbl io1 fs0 auth K).err = none)
    (hsame : checkFileIsExist (AuthTool tbl io1 fs0 auth K).fs auth =
      checkFileIsExist fs0 auth) :
    (AuthTool tbl io2 (AuthTool tbl io1 fs0 auth K).fs auth K).path =
        (AuthTool tbl io1 fs0 auth K).path ∧
      (AuthTool tbl io2 (AuthTool tbl io1 fs0 auth K).fs auth K).err = none ∧
      (AuthTool tbl io2 (AuthTool tbl io1 fs0 auth K).fs auth K).fs =
        (AuthTool tbl io1 fs0 auth K).fs ∧
      (AuthTool tbl io2 (AuthTool tbl io1 fs0 auth K).fs auth K).out = [] ∧
      ∀ (io : Faults) (fs : FS) (a k : GoString), (AuthTool tbl io fs a k).out ≠ [] →
        (AuthTool tbl io fs a k).out = [AuthTool.cacheLine (AuthTool tbl io fs a k).path] ∧
          checkFileIsExist fs (AuthTool tbl io fs a k).path = false ∧
          ∃ X, AuthTool.contents tbl a k = Except.ok X ∧
            Stat (AuthTool tbl io fs a k).fs (AuthTool tbl io fs a k).path = some (Node.file X) := by
  rw [AuthTool_again tbl io1 io2 fs0 auth K hok hsame]
  refine ⟨rfl, rfl, rfl, rfl, ?_⟩
  intro io fs a k hout
  obtain ⟨hne, herr⟩ := AuthTool_out_nonempty tbl io fs a k hout
  obtain ⟨ft, bp, X, _, hX, hp, _, hcase⟩ := AuthTool_ok_path tbl io fs a k hne herr
  rcases hcase with ⟨h, _⟩ | ⟨h1, h2, h3⟩
  · exact absurd h hout
  · rw [hp]
    exact ⟨h1, h2, X, hX, h3⟩

theorem AuthTool_idempotent_witness :
    (AuthTool id Faults.none [] "nkey:seed".toList "nkey".toList).err = none ∧
    checkFileIsExist (AuthTool id Faults.none [] "nkey:seed".toList "nkey".toList).fs
        "nkey:seed".toList = checkFileIsExist [] "nkey:seed".toList ∧
    (AuthTool id Faults.none [] "nkey:seed".toList "nkey".toList).out ≠ [] ∧
    (AuthTool id Faults.none (AuthTool id Faults.none [] "nkey:seed".toList "nkey".toList).fs
        "nkey:seed".toList "nkey".toList).path =
      (AuthTool id Faults.none [] "nkey:seed".toList "nkey".toList).path ∧
    (AuthTool id Faults.none (AuthTool id Faults.none [] "nkey:seed".toList "nkey".toList).fs
        "nkey:seed".toList "nkey".toList).out = [] :=
  ⟨by decide!, by decide!, by decide!,
    (AuthTool_idempotent id Faults.none Faults.none [] "nkey:seed".toList "nkey".toList
      (by decide!) (by decide!)).1,
    (AuthTool_idempotent id Faults.none Faults.none [] "nkey:seed".toList "nkey".toList
      (by decide!) (by decide!)).2.2.2.1⟩

/-- C6: for a kind `creds` or `nkey`, two raw strings with the same decoded
content: in one file system in which neither names a file the two calls have the
same outcome; in any two file systems in which they name no file the paths of
two successful calls are the same; and after a successful call on the first, a
call on the second, where it names no file, returns that path and writes
nothing. -/
theorem AuthTool_same_content_same_path (tbl : Char → Char) (K a1 a2 : GoString) (b : Bytes)
    (hK : K = "creds".toList ∨ K = "nkey".toList)
    (h1 : AuthTool.contents tbl a1 K = Except.ok b)
    (h2 : AuthTool.contents tbl a2 K = Except.ok b) :
    (∀ (io : Faults) (fs : FS), checkFileIsExist fs a1 = false → checkFileIsExist fs a2 = false →
      AuthTool tbl io fs a1 K = AuthTool tbl io fs a2 K) ∧
    (∀ (io1 io2 : Faults) (fs1 fs2 : FS),
      checkFileIsExist fs1 a1 = false → checkFileIsExist fs2 a2 = false →
      (AuthTool tbl io1 fs1 a1 K).err = none → (AuthTool tbl io2 fs2 a2 K).err = none →
      (AuthTool tbl io1 fs1 a1 K).path = (AuthTool tbl io2 fs2 a2 K).path) ∧
    (∀ (io1 io2 : Faults) (fs : FS),
      checkFileIsExist fs a1 = false → (AuthTool tbl io1 fs a1 K).err = none →
      checkFileIsExist (AuthTool tbl io1 fs a1 K).fs a2 = false →
      AuthTool tbl io2 (AuthTool tbl io1 fs a1 K).fs a2 K =
        { path := (AuthTool tbl io1 fs a1 K).path, err := none,
          fs := (AuthTool tbl io1 fs a1 K).fs, out := [] }) := by
  obtain ⟨ft, bp, hk⟩ := kind_of_known K hK
  refine ⟨?_, ?_, ?_⟩
  · intro io fs hn1 hn2
    rw [AuthTool_of_contents tbl io fs a1 K ft bp b hn1 hk h1,
      AuthTool_of_contents tbl io fs a2 K ft bp b hn2 hk h2]
  · intro io1 io2 fs1 fs2 hn1 hn2 ho1 ho2
    obtain ⟨ft1, bp1, X1, hk1, hX1, hp1, _⟩ := AuthTool_ok_path tbl io1 fs1 a1 K hn1 ho1
    obtain ⟨ft2, bp2, X2, hk2, hX2, hp2, _⟩ := AuthTool_ok_path tbl io2 fs2 a2 K hn2 ho2
    rw [hk] at hk1 hk2
    rw [h1] at hX1
    rw [h2] at hX2
    cases hk1
    cases hk2
    cases hX1
    cases hX2
    rw [hp1, hp2]
  · intro io1 io2 fs hn1 ho1 hne2
    obtain ⟨ft1, bp1, X1, hk1, hX1, hp1, hP, _⟩ := AuthTool_ok_path tbl io1 fs a1 K hn1 ho1
    rw [hk] at hk1
    rw [h1] at hX1
    cases hk1
    cases hX1
    rw [(AuthTool_materialize tbl io2 _ a2 K ft bp b hne2 hk h2).1 hP, hp1]

theorem AuthTool_same_content_same_path_witness :
    AuthTool.contents id "creds:x".toList "creds".toList = Except.ok [120] ∧
    AuthTool.contents id "base64:eA==".toList "creds".toList = Except.ok [120] ∧
    AuthTool id Faults.none [] "creds:x".toList "creds".toList =
      AuthTool id Faults.none [] "base64:eA==".toList "creds".toList :=
  ⟨by decide, by decide,
    (AuthTool_same_content_same_path id "creds".toList "creds:x".toList "base64:eA==".toList [120]
      (Or.inl rfl) (by decide) (by decide)).1 Faults.none [] (by decide) (by decide)⟩

/-- C7 fails as stated: the raw string `creds:x` resolves to itself where a file
of that name exists and to the cache path where none does; both calls succeed. -/
theorem same_input_resolves_to_two_paths :
    AuthTool id Faults.none [("creds:x".toList, Node.file [1])] "creds:x".toList "creds".toList =
      { path := "creds:x".toList, err := none, fs := [("creds:x".toList, Node.file [1])],
        out := [] } ∧
    (AuthTool id Faults.none [] "creds:x".toList "creds".toList).err = none ∧
    (AuthTool id Faults.none [] "creds:x".toList "creds".toList).path =
      "/nack-accounts/creds/9dd4e461268c8034f5c8564e155c67a6.creds".toList ∧
    (AuthTool id Faults.none [("creds:x".toList, Node.file [1])] "creds:x".toList
        "creds".toList).path ≠
      (AuthTool id Faults.none [] "creds:x".toList "creds".toList).path := by
  decide!

/-- C7, amended: in two file systems that agree on whether `auth` names an
existing file, two successful calls `AuthTool(auth, K)` return the same path. -/
theorem AuthTool_path_deterministic (tbl : Char → Char) (io1 io2 : Faults) (fs1 fs2 : FS)
    (auth K : GoString) (hsame : checkFileIsExist fs1 auth = checkFileIsExist fs2 auth)
    (h1 : (AuthTool tbl io1 fs1 auth K).err = none)
    (h2 : (AuthTool tbl io2 fs2 auth K).err = none) :
    (AuthTool tbl io1 fs1 auth K).path = (AuthTool tbl io2 fs2 auth K).path := by
  cases hex : checkFileIsExist fs1 auth with
  | true =>
    have hex2 : checkFileIsExist fs2 auth = true := by rw [← hsame, hex]
    unfold AuthTool
    rw [hex, hex2]
    rfl
  | false =>
    have hex2 : checkFileIsExist fs2 auth = false := by rw [← hsame, hex]
    obtain ⟨ft1, bp1, X1, hk1, hX1, hp1, _⟩ := AuthTool_ok_path tbl io1 fs1 auth K hex h1
    obtain ⟨ft2, bp2, X2, hk2, hX2, hp2, _⟩ := AuthTool_ok_path tbl io2 fs2 auth K hex2 h2
    rw [hk1] at hk2
    rw [hX1] at hX2
    cases hk2
    cases hX2
    rw [hp1, hp2]

theorem AuthTool_path_deterministic_witness :
    checkFileIsExist [] "creds:x".toList =
      checkFileIsExist [("/nack-accounts".toList, Node.dir)] "creds:x".toList ∧
    (AuthTool id Faults.none [] "creds:x".toList "creds".toList).err = none ∧
    (AuthTool id Faults.none [("/nack-accounts".toList, Node.dir)] "creds:x".toList
      "creds".toList).err = none ∧
    (AuthTool id Faults.none [] "creds:x".toList "creds".toList).path =
      (AuthTool id Faults.none [("/nack-accounts".toList, Node.dir)] "creds:x".toList
        "creds".toList).path :=
  ⟨by decide, by decide!, by decide!,
    AuthTool_path_deterministic id Faults.none Faults.none [] _ "creds:x".toList "creds".toList
      (by decide) (by decide!) (by decide!)⟩

/-- C8: for an auth type other than `creds` and `nkey`, compared exactly, and
an `auth` that names no existing file, `AuthTool` returns the empty path and
the error `unknown auth type: <authType>`, leaves the file system as it was and
prints nothing, whatever `auth` is (no colon, invalid base64, ...). -/
theorem AuthTool_unknown_auth_type (tbl : Char → Char) (io : Faults) (fs : FS)
    (auth authType : GoString) (h1 : authType ≠ "creds".toList) (h2 : authType ≠ "nkey".toList)
    (hne : checkFileIsExist fs auth = false) :
    AuthTool tbl io fs auth authType =
      { path := [], err := some (GoError.errorf ("unknown auth type: ".toList ++ authType)),
        fs := fs, out := [] } := by
  have hk : AuthTool.kind authType = none := by
    unfold AuthTool.kind
    rw [if_neg h1, if_neg h2]
  unfold AuthTool
  rw [hne, hk]
  rfl

theorem AuthTool_unknown_auth_type_witness :
    "Creds".toList ≠ "creds".toList ∧ "Creds".toList ≠ "nkey".toList ∧
    checkFileIsExist [] "base64:!!".toList = false ∧
    AuthTool id Faults.none [] "base64:!!".toList "Creds".toList =
      { path := [], err := some (GoError.errorf ("unknown auth type: ".toList ++ "Creds".toList)),
        fs := [], out := [] } :=
  ⟨by decide, by decide, by decide,
    AuthTool_unknown_auth_type id Faults.none [] _ _ (by decide) (by decide) (by decide)⟩

/-- C9: for a kind `creds` or `nkey` and an `auth` that names no existing file,
`AuthTool` returns the error `not supported auth or file not exist: <auth>`
exactly when `auth` has no colon; it then returns the empty path, leaves the
file system as it was and prints nothing. -/
theorem AuthTool_unrecognized_format_iff (tbl : Char → Char) (io : Faults) (fs : FS)
    (auth K : GoString) (hK : K = "creds".toList ∨ K = "nkey".toList)
    (hne : checkFileIsExist fs auth = false) :
    ((AuthTool tbl io fs auth K).err =
        some (GoError.errorf ("not supported auth or file not exist: ".toList ++ auth)) ↔
      ':' ∉ auth) ∧
    (':' ∉ auth →
      AuthTool tbl io fs auth K =
        { path := [],
          err := some (GoError.errorf ("not supported auth or file not exist: ".toList ++ auth)),
          fs := fs, out := [] }) := by
  have hres : ':' ∉ auth →
      AuthTool tbl io fs auth K =
        { path := [],
          err := some (GoError.errorf ("not supported auth or file not exist: ".toList ++ auth)),
          fs := fs, out := [] } := by
    intro hc
    unfold AuthTool
    rw [hne, contents_of_no_colon tbl auth K hc]
    rcases hK with rfl | rfl <;> rfl
  refine ⟨⟨?_, fun hc => by rw [hres hc]⟩, hres⟩
  intro herr hc
  exact AuthTool_error_of_colon tbl io fs auth K hK hne hc _ herr

theorem AuthTool_unrecognized_format_iff_witness :
    checkFileIsExist [] "not-a-path-or-spec".toList = false ∧
    ':' ∉ "not-a-path-or-spec".toList ∧
    ((AuthTool id Faults.none [] "not-a-path-or-spec".toList "nkey".toList).err =
        some (GoError.errorf
          ("not supported auth or file not exist: ".toList ++ "not-a-path-or-spec".toList)) ↔
      ':' ∉ "not-a-path-or-spec".toList) ∧
    AuthTool id Faults.none [] "not-a-path-or-spec".toList "nkey".toList =
      { path := [],
        err := some (GoError.errorf
          ("not supported auth or file not exist: ".toList ++ "not-a-path-or-spec".toList)),
        fs := [], out := [] } :=
  ⟨by decide, by decide,
    (AuthTool_unrecognized_format_iff id Faults.none [] _ _ (Or.inr rfl) (by decide)).1,
    (AuthTool_unrecognized_format_iff id Faults.none [] _ _ (Or.inr rfl) (by decide)).2
      (by decide)⟩

/-- C10, as stated, fails: for `auth = "x"` and the kind `creds` the message of
the error is `not supported auth or file not exist: x`, in which the kind does
not occur. -/
theorem unrecognized_format_message_lacks_kind :
    checkFileIsExist [] "x".toList = false ∧ ':' ∉ "x".toList ∧
    (AuthTool id Faults.none [] "x".toList "creds".toList).err =
      some (GoError.errorf "not supported auth or file not exist: x".toList) ∧
    ¬ "creds".toList <:+: "not supported auth or file not exist: x".toList := by
  decide

/-- C10, amended: for a kind `creds` or `nkey` and a colon-free `auth` that
names no existing file, the message of the error is the fixed text
`not supported auth or file not exist: ` followed by `auth`; it contains
`auth`, and it contains the kind only when `auth` itself does. -/
theorem AuthTool_unrecognized_format_message (tbl : Char → Char) (io : Faults) (fs : FS)
    (auth K : GoString) (hK : K = "creds".toList ∨ K = "nkey".toList)
    (hne : checkFileIsExist fs auth = false) (hc : ':' ∉ auth) :
    (AuthTool tbl io fs auth K).err =
        some (GoError.errorf ("not supported auth or file not exist: ".toList ++ auth)) ∧
      auth <:+: "not supported auth or file not exist: ".toList ++ auth ∧
      (K <:+: "not supported auth or file not exist: ".toList ++ auth ↔ K <:+: auth) := by
  refine ⟨?_, (List.suffix_append _ auth).isInfix, kind_infix_message_iff auth K hK⟩
  unfold AuthTool
  rw [hne, contents_of_no_colon tbl auth K hc]
  rcases hK with rfl | rfl <;> rfl

theorem AuthTool_unrecognized_format_message_witness :
    checkFileIsExist [] "my creds".toList = false ∧ ':' ∉ "my creds".toList ∧
    ((AuthTool id Faults.none [] "my creds".toList "creds".toList).err =
        some (GoError.errorf ("not supported auth or file not exist: ".toList ++ "my creds".toList)) ∧
      "my creds".toList <:+: "not supported auth or file not exist: ".toList ++ "my creds".toList ∧
      ("creds".toList <:+: "not supported auth or file not exist: ".toList ++ "my creds".toList ↔
        "creds".toList <:+: "my creds".toList)) :=
  ⟨by decide, by decide,
    AuthTool_unrecognized_format_message id Faults.none [] _ _ (Or.inl rfl) (by decide) (by decide)⟩

/-- C11: for a kind `creds` or `nkey` and a raw string `p:payload` that names no
existing file, whose prefix `p` is `base64` once trimmed and lower-cased and
whose trimmed payload the base64 decoder rejects with the error `e`, `AuthTool`
returns the empty path and exactly `e`, a `CorruptInputError`, leaves the file
system as it was and prints nothing. -/
theorem AuthTool_base64_decode_error (tbl : Char → Char) (io : Faults) (fs : FS)
    (K p payload : GoString) (e : GoError) (hK : K = "creds".toList ∨ K = "nkey".toList)
    (hnorm : ToLower tbl (TrimSpace p) = "base64".toList)
    (hdec : base64.DecodeString (TrimSpace payload) = Except.error e)
    (hne : checkFileIsExist fs (p ++ ":".toList ++ payload) = false) :
    AuthTool tbl io fs (p ++ ":".toList ++ payload) K =
        { path := [], err := some e, fs := fs, out := [] } ∧
      ∃ offset, e = GoError.corruptInput offset := by
  have hp : ':' ∉ p := colon_not_mem_of_normalized tbl p _ hnorm (by decide)
  have hb : "base64".toList ≠ K := by rcases hK with rfl | rfl <;> decide
  have he : p ++ ":".toList ++ payload = p ++ ':' :: payload := by simp
  rw [he] at hne ⊢
  have hX : AuthTool.contents tbl (p ++ ':' :: payload) K = Except.error e := by
    rw [contents_of_split tbl p payload K hp, hnorm, if_neg hb, if_pos rfl, hdec]
  refine ⟨AuthTool_of_contents_error tbl io fs _ K e hK hne hX, ?_⟩
  unfold base64.DecodeString at hdec
  exact base64_decode_error _ _ _ _ _ hdec

theorem AuthTool_base64_decode_error_witness :
    ToLower id (TrimSpace " Base64 ".toList) = "base64".toList ∧
    base64.DecodeString (TrimSpace "!!!".toList) = Except.error (GoError.corruptInput 0) ∧
    checkFileIsExist [] (" Base64 ".toList ++ ":".toList ++ "!!!".toList) = false ∧
    AuthTool id Faults.none [] (" Base64 ".toList ++ ":".toList ++ "!!!".toList) "creds".toList =
      { path := [], err := some (GoError.corruptInput 0), fs := [], out := [] } :=
  ⟨by decide, by decide, by decide,
    (AuthTool_base64_decode_error id Faults.none [] "creds".toList " Base64 ".toList "!!!".toList
      (GoError.corruptInput 0) (Or.inl rfl) (by decide) (by decide) (by decide)).1⟩

/-- C12 fails as stated: `nkey:x` for the kind `creds` names no existing file
and its prefix is neither `creds` nor `base64`, but when the system refuses to
make the directory `/nack-accounts` (error 30, `EROFS`) `AuthTool` reports that
error. -/
theorem other_prefix_fails_on_mkdir_refusal :
    checkFileIsExist [] ("nkey".toList ++ ":".toList ++ "x".toList) = false ∧
    AuthTool id { mkdir := fun _ => some 30, write := WriteFault.ok } []
        ("nkey".toList ++ ":".toList ++ "x".toList) "creds".toList =
      { path := [], err := some (GoError.pathError "mkdir".toList "/nack-accounts".toList 30),
        fs := [], out := [] } := by
  decide!

/-- C12, amended: for a kind `K` (`creds` or `nkey`, with suffix `ft` and base
directory `bp`) and a raw string `p:payload` that names no existing file and
whose prefix `p`, trimmed and lower-cased, is neither `K` nor `base64`, the
content is empty whatever the payload and the target path is `bp` followed by
`d41d8cd98f00b204e9800998ecf8427e` and `ft`.  If that path exists it is returned
and nothing is written; if it is absent and `MkdirAll` and `WriteFile` succeed,
it is returned and the new file is empty; the call fails only when `MkdirAll`
or `WriteFile` does. -/
theorem AuthTool_foreign_prefix_empty (tbl : Char → Char) (io : Faults) (fs : FS)
    (K ft bp p payload : GoString) (hk : AuthTool.kind K = some (ft, bp)) (hp : ':' ∉ p)
    (hn1 : ToLower tbl (TrimSpace p) ≠ K)
    (hn2 : ToLower tbl (TrimSpace p) ≠ "base64".toList)
    (hne : checkFileIsExist fs (p ++ ":".toList ++ payload) = false) :
    AuthTool.contents tbl (p ++ ":".toList ++ payload) K = Except.ok [] ∧
    AuthTool.filepath bp [] ft = bp ++ "d41d8cd98f00b204e9800998ecf8427e".toList ++ ft ∧
    (checkFileIsExist fs (AuthTool.filepath bp [] ft) = true →
      AuthTool tbl io fs (p ++ ":".toList ++ payload) K =
        { path := AuthTool.filepath bp [] ft, err := none, fs := fs, out := [] }) ∧
    (checkFileIsExist fs (AuthTool.filepath bp [] ft) = false →
      (MkdirAll io fs bp).2 = none →
      (WriteFile io (MkdirAll io fs bp).1 (AuthTool.filepath bp [] ft) []).2 = none →
      AuthTool tbl io fs (p ++ ":".toList ++ payload) K =
        { path := AuthTool.filepath bp [] ft, err := none,
          fs := (AuthTool.filepath bp [] ft, Node.file []) :: (MkdirAll io fs bp).1,
          out := [AuthTool.cacheLine (AuthTool.filepath bp [] ft)] }) ∧
    ((AuthTool tbl io fs (p ++ ":".toList ++ payload) K).err ≠ none →
      (AuthTool tbl io fs (p ++ ":".toList ++ payload) K).err = (MkdirAll io fs bp).2 ∨
      (AuthTool tbl io fs (p ++ ":".toList ++ payload) K).err =
        (WriteFile io (MkdirAll io fs bp).1 (AuthTool.filepath bp [] ft) []).2) := by
  have he : p ++ ":".toList ++ payload = p ++ ':' :: payload := by simp
  rw [he] at hne ⊢
  have hX : AuthTool.contents tbl (p ++ ':' :: payload) K = Except.ok [] := by
    rw [contents_of_split tbl p payload K hp, if_neg hn1, if_neg hn2]
  obtain ⟨h1, h2, h3⟩ := AuthTool_materialize tbl io fs _ K ft bp _ hne hk hX
  refine ⟨hX, ?_, h1, h2, fun h => ?_⟩
  · unfold AuthTool.filepath
    rw [md5_empty]
  · rcases (h3 h).2.2 with h | h
    · exact Or.inl h
    · exact Or.inr h.2

theorem AuthTool_foreign_prefix_empty_witness :
    AuthTool.kind "creds".toList = some (".creds".toList, "/nack-accounts/creds/".toList) ∧
    ':' ∉ "nkey".toList ∧
    ToLower id (TrimSpace "nkey".toList) ≠ "creds".toList ∧
    ToLower id (TrimSpace "nkey".toList) ≠ "base64".toList ∧
    checkFileIsExist [] ("nkey".toList ++ ":".toList ++ "SUAB".toList) = false ∧
    AuthTool.contents id ("nkey".toList ++ ":".toList ++ "SUAB".toList) "creds".toList =
      Except.ok [] ∧
    AuthTool.filepath "/nack-accounts/creds/".toList [] ".creds".toList =
      "/nack-accounts/creds/".toList ++ "d41d8cd98f00b204e9800998ecf8427e".toList ++
        ".creds".toList :=
  ⟨rfl, by decide, by decide, by decide, by decide,
    (AuthTool_foreign_prefix_empty id Faults.none [] "creds".toList _ _ "nkey".toList "SUAB".toList
      (rfl : AuthTool.kind "creds".toList = some (".creds".toList, "/nack-accounts/creds/".toList))
      (by decide) (by decide) (by decide) (by decide)).1,
    (AuthTool_foreign_prefix_empty id Faults.none [] "creds".toList _ _ "nkey".toList "SUAB".toList
      (rfl : AuthTool.kind "creds".toList = some (".creds".toList, "/nack-accounts/creds/".toList))
      (by decide) (by decide) (by decide) (by decide)).2.1⟩

/-- C13: for a descriptor of a known shape whose credential source `c` is not
empty, whatever its key source `k`, `AddAuthToOptions` calls `AuthTool` once,
on `c` with the kind `creds`; when that call succeeds with path `P` the result
is the input options followed by the one option `UserCredentials(P)` and no
error, otherwise the input options and the error of the call.  The result is
the one for the descriptor with the key source cleared, and does not depend on
`NkeyOptionFromSeed`. -/
theorem AddAuthToOptions_credentials_win (tbl : Char → Char)
    (seed : FS → GoString → Except GoError NatsOption) (io : Faults) (fs : FS)
    (source : Source) (c k : GoString) (opts : List NatsOption)
    (hsrc : source = Source.options { NATSCredentials := c, NATSNKey := k } ∨
      source = Source.serverSpec { Creds := c, Nkey := k })
    (hc : c ≠ []) :
    (AddAuthToOptions tbl seed io fs source opts).calls = [(c, "creds".toList)] ∧
    (AddAuthToOptions tbl seed io fs source opts).fs = (AuthTool tbl io fs c "creds".toList).fs ∧
    (AddAuthToOptions tbl seed io fs source opts).out =
      (AuthTool tbl io fs c "creds".toList).out ∧
    ((AuthTool tbl io fs c "creds".toList).err = none →
      (AddAuthToOptions tbl seed io fs source opts).opts =
          opts ++ [NatsOption.userCredentials (AuthTool tbl io fs c "creds".toList).path] ∧
        (AddAuthToOptions tbl seed io fs source opts).err = none) ∧
    (∀ e, (AuthTool tbl io fs c "creds".toList).err = some e →
      (AddAuthToOptions tbl seed io fs source opts).opts = opts ∧
        (AddAuthToOptions tbl seed io fs source opts).err = some e) ∧
    AddAuthToOptions tbl seed io fs source opts =
      AddAuthToOptions tbl seed io fs
        (Source.options { NATSCredentials := c, NATSNKey := [] }) opts ∧
    (∀ seed2 : FS → GoString → Except GoError NatsOption,
      AddAuthToOptions tbl seed2 io fs source opts =
        AddAuthToOptions tbl seed io fs source opts) := by
  have hr : ∀ (sd : FS → GoString → Except GoError NatsOption),
      AddAuthToOptions tbl sd io fs source opts =
        AddAuthToOptions.resolve tbl sd io fs c k opts := by
    intro sd
    rcases hsrc with rfl | rfl <;> rfl
  have hcl : AddAuthToOptions tbl seed io fs
      (Source.options { NATSCredentials := c, NATSNKey := [] }) opts =
        AddAuthToOptions.resolve tbl seed io fs c [] opts := rfl
  rw [hcl, hr seed, resolve_of_creds tbl seed io fs c k opts hc,
    resolve_of_creds tbl seed io fs c [] opts hc]
  refine ⟨?_, ?_, ?_, ?_, ?_, rfl, ?_⟩
  · cases (AuthTool tbl io fs c "creds".toList).err <;> rfl
  · cases (AuthTool tbl io fs c "creds".toList).err <;> rfl
  · cases (AuthTool tbl io fs c "creds".toList).err <;> rfl
  · intro h
    rw [h]
    exact ⟨rfl, rfl⟩
  · intro e h
    rw [h]
    exact ⟨rfl, rfl⟩
  · intro seed2
    rw [hr seed2, resolve_of_creds tbl seed2 io fs c k opts hc]

theorem AddAuthToOptions_credentials_win_witness :
    "creds:abc".toList ≠ [] ∧
    (AuthTool id Faults.none [] "creds:abc".toList "creds".toList).err = none ∧
    (AddAuthToOptions id (fun _ _ => Except.ok (NatsOption.given 7)) Faults.none []
      (Source.serverSpec { Creds := "creds:abc".toList, Nkey := "nkey:seed".toList })
      [NatsOption.given 0]).calls = [("creds:abc".toList, "creds".toList)] ∧
    (AddAuthToOptions id (fun _ _ => Except.ok (NatsOption.given 7)) Faults.none []
      (Source.serverSpec { Creds := "creds:abc".toList, Nkey := "nkey:seed".toList })
      [NatsOption.given 0]).opts =
      [NatsOption.given 0] ++ [NatsOption.userCredentials
        (AuthTool id Faults.none [] "creds:abc".toList "creds".toList).path] :=
  ⟨by decide, by decide!,
    (AddAuthToOptions_credentials_win id (fun _ _ => Except.ok (NatsOption.given 7)) Faults.none []
      _ "creds:abc".toList "nkey:seed".toList [NatsOption.given 0] (Or.inr rfl) (by decide)).1,
    ((AddAuthToOptions_credentials_win id (fun _ _ => Except.ok (NatsOption.given 7)) Faults.none
      [] _ "creds:abc".toList "nkey:seed".toList [NatsOption.given 0] (Or.inr rfl)
      (by decide)).2.2.2.1 (by decide!)).1⟩

/-- C14: for a descriptor of a known shape whose two sources are empty,
`AddAuthToOptions` returns the input options as they are and no error, calls
`AuthTool` not at all, leaves the file system as it was and prints nothing. -/
theorem AddAuthToOptions_no_source (tbl : Char → Char)
    (seed : FS → GoString → Except GoError NatsOption) (io : Faults) (fs : FS)
    (source : Source) (opts : List NatsOption)
    (hsrc : source = Source.options { NATSCredentials := [], NATSNKey := [] } ∨
      source = Source.serverSpec { Creds := [], Nkey := [] }) :
    AddAuthToOptions tbl seed io fs source opts =
      { opts := opts, err := none, fs := fs, out := [], calls := [] } := by
  rcases hsrc with rfl | rfl
  · exact resolve_of_empty tbl seed io fs opts
  · exact resolve_of_empty tbl seed io fs opts

theorem AddAuthToOptions_no_source_witness :
    AddAuthToOptions id (fun _ _ => Except.ok (NatsOption.given 7)) Faults.none
        [("/etc/passwd".toList, Node.file [114])]
        (Source.options { NATSCredentials := [], NATSNKey := [] })
        [NatsOption.given 0, NatsOption.given 1] =
      { opts := [NatsOption.given 0, NatsOption.given 1], err := none,
        fs := [("/etc/passwd".toList, Node.file [114])], out := [], calls := [] } :=
  AddAuthToOptions_no_source id (fun _ _ => Except.ok (NatsOption.given 7)) Faults.none _ _ _
    (Or.inl rfl)

/-- C15: `AddAuthToOptions` returns the error `unknown type: <source>` exactly
when the descriptor is neither an `Options` nor a `ServerSpec` value; it then
returns the input options as they are, calls `AuthTool` not at all, leaves the
file system as it was and prints nothing. -/
theorem AddAuthToOptions_unknown_type_iff (tbl : Char → Char)
    (seed : FS → GoString → Except GoError NatsOption) (io : Faults) (fs : FS)
    (source : Source) (opts : List NatsOption) :
    ((∃ v, (AddAuthToOptions tbl seed io fs source opts).err =
          some (GoError.errorf ("unknown type: ".toList ++ v))) ↔
        ∃ shown, source = Source.other shown) ∧
      ∀ shown, source = Source.other shown →
        AddAuthToOptions tbl seed io fs source opts =
          { opts := opts, err := some (GoError.errorf ("unknown type: ".toList ++ shown)),
            fs := fs, out := [], calls := [] } := by
  refine ⟨⟨?_, ?_⟩, ?_⟩
  · rintro ⟨v, hv⟩
    cases source with
    | options o =>
      exact absurd hv (resolve_err_ne_unknown_type tbl seed io fs _ _ v opts)
    | serverSpec s =>
      exact absurd hv (resolve_err_ne_unknown_type tbl seed io fs _ _ v opts)
    | other shown => exact ⟨shown, rfl⟩
  · rintro ⟨shown, rfl⟩
    exact ⟨shown, rfl⟩
  · rintro shown rfl
    rfl

/-- C16, what the code does: for a descriptor with an empty credential source
and a key source whose file is materialized, when `NkeyOptionFromSeed` fails
`AddAuthToOptions` returns the input options and no error (line 57). -/
theorem AddAuthToOptions_drops_seed_error :
    (AuthTool id Faults.none [] "nkey:not-a-seed".toList "nkey".toList).err = none ∧
    AddAuthToOptions id
        (fun _ _ => Except.error (GoError.errorf "nats: Not a valid nkey user seed".toList))
        Faults.none []
        (Source.options { NATSCredentials := [], NATSNKey := "nkey:not-a-seed".toList })
        [NatsOption.given 0] =
      { opts := [NatsOption.given 0], err := none,
        fs := (AuthTool id Faults.none [] "nkey:not-a-seed".toList "nkey".toList).fs,
        out := (AuthTool id Faults.none [] "nkey:not-a-seed".toList "nkey".toList).out,
        calls := [("nkey:not-a-seed".toList, "nkey".toList)] } := by
  decide!

/-- C17: for a descriptor of a known shape with an empty credential source and
a key source `k` that is not empty, `AddAuthToOptions` calls `AuthTool` once, on
`k` with the kind `nkey`; when that call succeeds with path `P` and
`NkeyOptionFromSeed(P)` gives the option `opt`, the result is the input options
followed by `opt` and no error.  Outside the pass-through `P` is
`/nack-accounts/keys/<hex>.nk`. -/
theorem AddAuthToOptions_signing_key (tbl : Char → Char)
    (seed : FS → GoString → Except GoError NatsOption) (io : Faults) (fs : FS)
    (source : Source) (k : GoString) (opts : List NatsOption)
    (hsrc : source = Source.options { NATSCredentials := [], NATSNKey := k } ∨
      source = Source.serverSpec { Creds := [], Nkey := k })
    (hk : k ≠ []) :
    (AddAuthToOptions tbl seed io fs source opts).calls = [(k, "nkey".toList)] ∧
    (AddAuthToOptions tbl seed io fs source opts).fs = (AuthTool tbl io fs k "nkey".toList).fs ∧
    (AddAuthToOptions tbl seed io fs source opts).out = (AuthTool tbl io fs k "nkey".toList).out ∧
    (∀ opt, (AuthTool tbl io fs k "nkey".toList).err = none →
      seed (AuthTool tbl io fs k "nkey".toList).fs (AuthTool tbl io fs k "nkey".toList).path =
        Except.ok opt →
      (AddAuthToOptions tbl seed io fs source opts).opts = opts ++ [opt] ∧
        (AddAuthToOptions tbl seed io fs source opts).err = none) ∧
    ((AuthTool tbl io fs k "nkey".toList).err = none → checkFileIsExist fs k = false →
      ∃ X, AuthTool.contents tbl k "nkey".toList = Except.ok X ∧
        (AuthTool tbl io fs k "nkey".toList).path =
          "/nack-accounts/keys/".toList ++ hexString (md5.Sum X) ++ ".nk".toList) := by
  have hr : AddAuthToOptions tbl seed io fs source opts =
      AddAuthToOptions.resolve tbl seed io fs [] k opts := by
    rcases hsrc with rfl | rfl <;> rfl
  rw [hr, resolve_of_nkey tbl seed io fs k opts hk]
  refine ⟨?_, ?_, ?_, ?_, ?_⟩
  · cases (AuthTool tbl io fs k "nkey".toList).err with
    | some e => rfl
    | none =>
      simp only
      cases seed (AuthTool tbl io fs k "nkey".toList).fs
        (AuthTool tbl io fs k "nkey".toList).path <;> rfl
  · cases (AuthTool tbl io fs k "nkey".toList).err with
    | some e => rfl
    | none =>
      simp only
      cases seed (AuthTool tbl io fs k "nkey".toList).fs
        (AuthTool tbl io fs k "nkey".toList).path <;> rfl
  · cases (AuthTool tbl io fs k "nkey".toList).err with
    | some e => rfl
    | none =>
      simp only
      cases seed (AuthTool tbl io fs k "nkey".toList).fs
        (AuthTool tbl io fs k "nkey".toList).path <;> rfl
  · intro opt h hs
    rw [h]
    simp only
    rw [hs]
    exact ⟨rfl, rfl⟩
  · intro h hne
    obtain ⟨ft, bp, X, hkind, hX, hp, _⟩ := AuthTool_ok_path tbl io fs k "nkey".toList hne h
    refine ⟨X, hX, ?_⟩
    rw [hp]
    rcases kind_cases _ ft bp hkind with ⟨h1, _, _⟩ | ⟨_, h2, h3⟩
    · exact absurd h1 (by decide)
    · rw [h2, h3]
      rfl

theorem AddAuthToOptions_signing_key_witness :
    "nkey:seed".toList ≠ [] ∧
    (AuthTool id Faults.none [] "nkey:seed".toList "nkey".toList).err = none ∧
    (AddAuthToOptions id
      (fun _ file => Except.ok (NatsOption.nkey "UA".toList file)) Faults.none []
      (Source.options { NATSCredentials := [], NATSNKey := "nkey:seed".toList })
      [NatsOption.given 0]).calls = [("nkey:seed".toList, "nkey".toList)] ∧
    (AddAuthToOptions id
      (fun _ file => Except.ok (NatsOption.nkey "UA".toList file)) Faults.none []
      (Source.options { NATSCredentials := [], NATSNKey := "nkey:seed".toList })
      [NatsOption.given 0]).opts =
      [NatsOption.given 0] ++ [NatsOption.nkey "UA".toList
        (AuthTool id Faults.none [] "nkey:seed".toList "nkey".toList).path] :=
  ⟨by decide, by decide!,
    (AddAuthToOptions_signing_key id (fun _ file => Except.ok (NatsOption.nkey "UA".toList file))
      Faults.none [] _ "nkey:seed".toList [NatsOption.given 0] (Or.inl rfl) (by decide)).1,
    ((AddAuthToOptions_signing_key id (fun _ file => Except.ok (NatsOption.nkey "UA".toList file))
      Faults.none [] _ "nkey:seed".toList [NatsOption.given 0] (Or.inl rfl)
      (by decide)).2.2.2.1 _ (by decide!) rfl).1⟩

/-- C18: the prefix is compared after trimming and lower-casing.  For a kind
`K` (`creds` or `nkey`) and a prefix `p` whose normal form is `K`, the raw
strings `p:payload` and `K:payload`, neither naming an existing file, have the
same content and the same outcome; for a prefix whose normal form is `base64`
the same holds of `p:payload` and `base64:payload`. -/
theorem AuthTool_prefix_normalized (tbl : Char → Char) (io : Faults) (fs : FS)
    (K p payload : GoString) (hK : K = "creds".toList ∨ K = "nkey".toList)
    (hne : checkFileIsExist fs (p ++ ":".toList ++ payload) = false) :
    (ToLower tbl (TrimSpace p) = K →
      checkFileIsExist fs (K ++ ":".toList ++ payload) = false →
      AuthTool.contents tbl (p ++ ":".toList ++ payload) K =
          AuthTool.contents tbl (K ++ ":".toList ++ payload) K ∧
        AuthTool tbl io fs (p ++ ":".toList ++ payload) K =
          AuthTool tbl io fs (K ++ ":".toList ++ payload) K) ∧
    (ToLower tbl (TrimSpace p) = "base64".toList →
      checkFileIsExist fs ("base64:".toList ++ payload) = false →
      AuthTool.contents tbl (p ++ ":".toList ++ payload) K =
          AuthTool.contents tbl ("base64:".toList ++ payload) K ∧
        AuthTool tbl io fs (p ++ ":".toList ++ payload) K =
          AuthTool tbl io fs ("base64:".toList ++ payload) K) := by
  have hcK : ':' ∉ K := by rcases hK with rfl | rfl <;> decide
  have he : p ++ ":".toList ++ payload = p ++ ':' :: payload := by simp
  have heK : K ++ ":".toList ++ payload = K ++ ':' :: payload := by simp
  have heB : "base64:".toList ++ payload = "base64".toList ++ ':' :: payload := by simp
  rw [he] at hne ⊢
  rw [heK, heB]
  constructor
  · intro hnorm hne2
    have hp : ':' ∉ p := colon_not_mem_of_normalized tbl p K hnorm hcK
    have hc : AuthTool.contents tbl (p ++ ':' :: payload) K =
        AuthTool.contents tbl (K ++ ':' :: payload) K := by
      rw [contents_of_split tbl p payload K hp, hnorm, if_pos rfl, contents_literal tbl K payload hK]
    exact ⟨hc, AuthTool_congr tbl io fs _ _ K hne hne2 hc⟩
  · intro hnorm hne2
    have hp : ':' ∉ p := colon_not_mem_of_normalized tbl p _ hnorm (by decide)
    have hb : "base64".toList ≠ K := by rcases hK with rfl | rfl <;> decide
    have hc : AuthTool.contents tbl (p ++ ':' :: payload) K =
        AuthTool.contents tbl ("base64".toList ++ ':' :: payload) K := by
      rw [contents_of_split tbl p payload K hp, hnorm, if_neg hb, if_pos rfl,
        contents_base64 tbl K payload hK]
    exact ⟨hc, AuthTool_congr tbl io fs _ _ K hne hne2 hc⟩

theorem AuthTool_prefix_normalized_witness :
    checkFileIsExist [] (" CREDS ".toList ++ ":".toList ++ "x".toList) = false ∧
    ToLower id (TrimSpace " CREDS ".toList) = "creds".toList ∧
    checkFileIsExist [] ("creds".toList ++ ":".toList ++ "x".toList) = false ∧
    AuthTool.contents id (" CREDS ".toList ++ ":".toList ++ "x".toList) "creds".toList =
      AuthTool.contents id ("creds".toList ++ ":".toList ++ "x".toList) "creds".toList ∧
    AuthTool id Faults.none [] (" CREDS ".toList ++ ":".toList ++ "x".toList) "creds".toList =
      AuthTool id Faults.none [] ("creds".toList ++ ":".toList ++ "x".toList) "creds".toList :=
  ⟨by decide, by decide, by decide,
    (AuthTool_prefix_normalized id Faults.none [] "creds".toList " CREDS ".toList "x".toList
      (Or.inl rfl) (by decide)).1 (by decide) (by decide)⟩

/-- C19 fails as stated: when the write of the cache file stops after one byte
(error 28, `ENOSPC`), the call for `creds:xyz` returns the empty path and the
error, and leaves a new file that holds one byte of the three decoded. -/
theorem failed_write_leaves_partial_file :
    AuthTool.contents id "creds:xyz".toList "creds".toList = Except.ok [120, 121, 122] ∧
    AuthTool id { mkdir := fun _ => none, write := WriteFault.shortWrite 1 28 } []
        "creds:xyz".toList "creds".toList =
      { path := [],
        err := some (GoError.pathError "write".toList
          "/nack-accounts/creds/d16fb36f0911f878998c136191af705e.creds".toList 28),
        fs := [("/nack-accounts/creds/d16fb36f0911f878998c136191af705e.creds".toList,
            Node.file [120]),
          ("/nack-accounts/creds".toList, Node.dir), ("/nack-accounts".toList, Node.dir)],
        out := [] } := by
  decide!

/-- C19, amended: a call of `AuthTool` keeps what every existing name stands
for, so no file is deleted or changed.  A regular file that is new after the
call is at the target path of the call; when the call succeeds that is the
returned path and the file holds the decoded bytes; when the call fails the
returned path is empty and the file holds the first bytes of them, as many as
reached it before the write failed. -/
theorem AuthTool_frame (tbl : Char → Char) (io : Faults) (fs : FS) (auth authType : GoString) :
    (∀ name n, Stat fs name = some n → Stat (AuthTool tbl io fs auth authType).fs name = some n) ∧
    (∀ name c, Stat fs name = none →
      Stat (AuthTool tbl io fs auth authType).fs name = some (Node.file c) →
      ∃ ft bp X, AuthTool.kind authType = some (ft, bp) ∧
        AuthTool.contents tbl auth authType = Except.ok X ∧
        name = AuthTool.filepath bp X ft ∧
        (((AuthTool tbl io fs auth authType).err = none ∧
            (AuthTool tbl io fs auth authType).path = name ∧ c = X) ∨
          ((AuthTool tbl io fs auth authType).err ≠ none ∧
            (AuthTool tbl io fs auth authType).path = [] ∧ ∃ n, c = X.take n))) := by
  rcases AuthTool_fs_shape tbl io fs auth authType with h |
    ⟨ft, bp, X, hk, hX, _, hex, hcase⟩
  · rw [h]
    refine ⟨fun _ _ hn => hn, ?_⟩
    intro name c h0 h1
    rw [h0] at h1
    cases h1
  · have hP0 : Stat fs (AuthTool.filepath bp X ft) = none :=
      Stat_filepath_none fs authType ft bp X hk hex
    have hmono : ∀ name n, Stat fs name = some n → Stat (MkdirAll io fs bp).1 name = some n :=
      MkdirAll_mono io fs _ bp _ rfl
    have hnew : ∀ name, Stat (MkdirAll io fs bp).1 name = Stat fs name ∨
        Stat (MkdirAll io fs bp).1 name = some Node.dir :=
      MkdirAll_new io fs _ bp _ rfl
    have hnofile : ∀ name c, Stat fs name = none →
        Stat (MkdirAll io fs bp).1 name ≠ some (Node.file c) := by
      intro name c h0 h1
      rcases hnew name with h | h
      · rw [h, h0] at h1; cases h1
      · rw [h] at h1; cases h1
    have hne : ∀ name n, Stat fs name = some n → name ≠ AuthTool.filepath bp X ft := by
      intro name n hn e
      rw [e, hP0] at hn
      cases hn
    rcases hcase with ⟨hfs, herr, hpath⟩ | ⟨hfs, herr, hpath⟩ | ⟨n, errno, _, hfs, herr, hpath⟩
    · rw [hfs]
      exact ⟨hmono, fun name c h0 h1 => absurd h1 (hnofile name c h0)⟩
    · rw [hfs]
      refine ⟨fun name n hn => ?_, fun name c h0 h1 => ?_⟩
      · rw [Stat_cons_ne _ _ _ _ (hne name n hn)]
        exact hmono name n hn
      · by_cases hnp : name = AuthTool.filepath bp X ft
        · rw [hnp, Stat_cons_self] at h1
          injection h1 with h1
          injection h1 with h1
          exact ⟨ft, bp, X, hk, hX, hnp, Or.inl ⟨herr, by rw [hpath, hnp], h1.symm⟩⟩
        · rw [Stat_cons_ne _ _ _ _ hnp] at h1
          exact absurd h1 (hnofile name c h0)
    · rw [hfs]
      refine ⟨fun name m hn => ?_, fun name c h0 h1 => ?_⟩
      · rw [Stat_cons_ne _ _ _ _ (hne name m hn)]
        exact hmono name m hn
      · by_cases hnp : name = AuthTool.filepath bp X ft
        · rw [hnp, Stat_cons_self] at h1
          injection h1 with h1
          injection h1 with h1
          exact ⟨ft, bp, X, hk, hX, hnp, Or.inr ⟨herr, hpath, n, h1.symm⟩⟩
        · rw [Stat_cons_ne _ _ _ _ hnp] at h1
          exact absurd h1 (hnofile name c h0)

/-- C20 fails as stated, twice.  A write that stops after one byte leaves, in a
cache that was consistent, a file under the digest of `xyz` that holds `x`; and
where a directory has the name of the target path, the call for `creds:x`
succeeds and returns a path that is no regular file. -/
theorem cache_invariant_broken :
    CacheConsistent [] ∧
    ¬ CacheConsistent
      (AuthTool id { mkdir := fun _ => none, write := WriteFault.shortWrite 1 28 } []
        "creds:xyz".toList "creds".toList).fs ∧
    CacheConsistent
      [("/nack-accounts/creds/9dd4e461268c8034f5c8564e155c67a6.creds".toList, Node.dir)] ∧
    checkFileIsExist
      [("/nack-accounts/creds/9dd4e461268c8034f5c8564e155c67a6.creds".toList, Node.dir)]
      "creds:x".toList = false ∧
    AuthTool id Faults.none
        [("/nack-accounts/creds/9dd4e461268c8034f5c8564e155c67a6.creds".toList, Node.dir)]
        "creds:x".toList "creds".toList =
      { path := "/nack-accounts/creds/9dd4e461268c8034f5c8564e155c67a6.creds".toList,
        err := none,
        fs := [("/nack-accounts/creds/9dd4e461268c8034f5c8564e155c67a6.creds".toList, Node.dir)],
        out := [] } := by
  refine ⟨CacheConsistent_nil, ?_, CacheConsistent_dir _, by decide, by decide!⟩
  intro hc
  have h1 : Stat
      (AuthTool id { mkdir := fun _ => none, write := WriteFault.shortWrite 1 28 } []
        "creds:xyz".toList "creds".toList).fs
      ("/nack-accounts/creds/".toList ++ "d16fb36f0911f878998c136191af705e".toList ++
        ".creds".toList) = some (Node.file [120]) := by decide!
  have h2 := (hc "d16fb36f0911f878998c136191af705e".toList [120]).1 h1
  revert h2
  decide!

/-- C20, amended: from a consistent cache, a call of `AuthTool` that succeeds,
or during which no write stops half way, leaves a consistent cache.  A call that
succeeds outside the pass-through returns a path that is a directory or a
regular file whose content has the MD5 digest of the decoded bytes, and is
those bytes if no other content of that digest was at the path.  With or
without a consistent cache, a target path that exists is returned as it is. -/
theorem AuthTool_cache_consistent (tbl : Char → Char) (io : Faults) (fs : FS)
    (auth K : GoString) (hcons : CacheConsistent fs) :
    (((AuthTool tbl io fs auth K).err = none ∨
        ∀ n errno, io.write ≠ WriteFault.shortWrite n errno) →
      CacheConsistent (AuthTool tbl io fs auth K).fs) ∧
    ((AuthTool tbl io fs auth K).err = none → checkFileIsExist fs auth = false →
      ∃ X, AuthTool.contents tbl auth K = Except.ok X ∧
        (Stat (AuthTool tbl io fs auth K).fs (AuthTool tbl io fs auth K).path = some Node.dir ∨
          ∃ c, Stat (AuthTool tbl io fs auth K).fs (AuthTool tbl io fs auth K).path =
              some (Node.file c) ∧
            hexString (md5.Sum c) = hexString (md5.Sum X) ∧
            ((∀ c2, Stat fs (AuthTool tbl io fs auth K).path = some (Node.file c2) →
                hexString (md5.Sum c2) = hexString (md5.Sum X) → c2 = X) → c = X))) ∧
    (∀ (fs2 : FS) (ft bp : GoString) (X : Bytes) (n : Node),
      AuthTool.kind K = some (ft, bp) → AuthTool.contents tbl auth K = Except.ok X →
      checkFileIsExist fs2 auth = false → Stat fs2 (AuthTool.filepath bp X ft) = some n →
      AuthTool tbl io fs2 auth K =
        { path := AuthTool.filepath bp X ft, err := none, fs := fs2, out := [] }) := by
  refine ⟨CacheConsistent_AuthTool tbl io fs auth K hcons, ?_, ?_⟩
  · intro hok hne
    obtain ⟨ft, bp, X, hk, hX, hp, hP, hcase⟩ := AuthTool_ok_path tbl io fs auth K hne hok
    refine ⟨X, hX, ?_⟩
    rw [hp]
    rcases hcase with ⟨_, hfs⟩ | ⟨_, _, hst⟩
    · rw [hfs] at hP ⊢
      have hex : checkFileIsExist fs (AuthTool.filepath bp X ft) = true := hP
      obtain ⟨n0, hs0⟩ := Stat_filepath_some fs K ft bp X hk hex
      cases hs : Stat fs (AuthTool.filepath bp X ft) with
      | none => rw [hs] at hs0; cases hs0
      | some n =>
        cases n with
        | dir => exact Or.inl rfl
        | file c =>
          right
          have hd : hexString (md5.Sum c) = hexString (md5.Sum X) := by
            rcases kind_cases K ft bp hk with ⟨_, h2, h3⟩ | ⟨_, h2, h3⟩
            · exact (hcons (hexString (md5.Sum X)) c).1
                (by rw [h2, h3] at hs; exact hs)
            · exact (hcons (hexString (md5.Sum X)) c).2
                (by rw [h2, h3] at hs; exact hs)
          exact ⟨c, rfl, hd, fun hinj => hinj c rfl hd⟩
    · right
      exact ⟨X, hst, rfl, fun _ => rfl⟩
  · intro fs2 ft bp X n hk hX hne hs
    exact (AuthTool_materialize tbl io fs2 auth K ft bp X hne hk hX).1
      (checkFileIsExist_filepath_of_Stat fs2 K ft bp X n hk hs)

theorem AuthTool_cache_consistent_witness :
    CacheConsistent [] ∧
    (AuthTool id Faults.none [] "creds:x".toList "creds".toList).err = none ∧
    CacheConsistent (AuthTool id Faults.none [] "creds:x".toList "creds".toList).fs :=
  ⟨CacheConsistent_nil, by decide!,
    (AuthTool_cache_consistent id Faults.none [] "creds:x".toList "creds".toList
      CacheConsistent_nil).1 (Or.inl (by decide!))⟩

end Nack
